import Mathlib

/-!
# Verification of the budget flow-diagram engine (`BudgetSankey.tsx`)

A shallow embedding of the core of `src/components/BudgetSankey.tsx`:
the graph builder (entry lists → nodes/links with a synthetic debt or
savings balancing node), the column layout engine (global vertical scale
and vertical stacking), the link router (proportional slices with running
per-node offsets), the drag reordering logic (snap zones, slot centers,
splice) and the click-highlight breadth-first traversal.

Numeric amounts are modelled as rationals (`ℚ`): the JavaScript source
computes with IEEE doubles, and every claim below concerns the exact
arithmetic of the algorithms, not rounding.  String row values parsed by
`parseFloat` (with `NaN ↦ 0`) are modelled as the already-parsed rational
value carried by `Row.value`.
-/

namespace BudgetSankey

/-- A user-entered row, as handed to the component.  `value` is the result
of `toNum` (`parseFloat` with `NaN ↦ 0`) on the raw string. -/
structure Row where
  id : String
  label : String
  value : ℚ
deriving DecidableEq, Repr

/-- Node categories (`NodeType` in the source). -/
inductive NodeType where
  | income
  | expense
  | savings
  | debt
  | pool
deriving DecidableEq, Repr

/-- `NodeDatum` from the source (`type` is spelled `ntype`: `type` is a
Lean keyword). -/
structure NodeDatum where
  id : String
  name : String
  ntype : NodeType
  value : ℚ
deriving DecidableEq, Repr

/-- `LinkDatum` from the source. -/
structure LinkDatum where
  source : String
  target : String
  value : ℚ
deriving DecidableEq, Repr

/-- A positioned node (`NodeLayout` in the source). -/
structure NodeLayout where
  id : String
  name : String
  ntype : NodeType
  value : ℚ
  colKey : String
  x : ℚ
  y : ℚ
  width : ℚ
  height : ℚ
deriving DecidableEq, Repr

/-- An intermediate mapped entry (the element shape of the `incomes` /
`expenses` arrays in the source). -/
structure Item where
  id : String
  label : String
  value : ℚ
deriving DecidableEq, Repr

/-- `incomes`: prefix ids with `inc-`, default blank labels to `"Income"`,
keep strictly positive amounts. -/
def incomesOf (rows : List Row) : List Item :=
  (rows.map (fun r =>
    Item.mk ("inc-" ++ r.id) (if r.label = "" then "Income" else r.label) r.value)).filter
    (fun d => 0 < d.value)

/-- `expenses`: prefix ids with `exp-`, default blank labels to
`"Expense"`, keep strictly positive amounts. -/
def expensesOf (rows : List Row) : List Item :=
  (rows.map (fun r =>
    Item.mk ("exp-" ++ r.id) (if r.label = "" then "Expense" else r.label) r.value)).filter
    (fun d => 0 < d.value)

/-- `totalIncome = d3.sum(incomes, d => d.value)`. -/
def totalIncomeOf (rows : List Row) : ℚ :=
  ((incomesOf rows).map (fun d => d.value)).sum

/-- `totalExpense = d3.sum(expenses, d => d.value)`. -/
def totalExpenseOf (rows : List Row) : ℚ :=
  ((expensesOf rows).map (fun d => d.value)).sum

/-- `debtTotal`: set iff `totalExpense > totalIncome`. -/
def debtTotalOf (tI tE : ℚ) : ℚ :=
  if tI < tE then tE - tI else 0

/-- `savingsTotal`: set in the `else` branch, `totalIncome − totalExpense`. -/
def savingsTotalOf (tI tE : ℚ) : ℚ :=
  if tI < tE then 0 else tI - tE

/-- `nodesRaw`, pushed in source order: incomes, debt (if positive), the
pool (`budget`), expenses, savings (if positive). -/
def nodesRawOf (incomes expenses : List Item) (debtTotal savingsTotal budgetInTotal : ℚ) :
    List NodeDatum :=
  incomes.map (fun i => NodeDatum.mk i.id i.label NodeType.income i.value)
    ++ (if 0 < debtTotal then [NodeDatum.mk "debt" "Debt" NodeType.debt debtTotal] else [])
    ++ [NodeDatum.mk "budget" "Total Budget" NodeType.pool budgetInTotal]
    ++ expenses.map (fun e => NodeDatum.mk e.id e.label NodeType.expense e.value)
    ++ (if 0 < savingsTotal then
          [NodeDatum.mk "savings" "Savings" NodeType.savings savingsTotal] else [])

/-- The link list, pushed in source order.  The inner `if (inc.value > 0)`
guards of the source loops are kept (they are redundant after the filter,
which claim C2 makes precise). -/
def linksOf (incomes expenses : List Item) (debtTotal savingsTotal : ℚ) : List LinkDatum :=
  (incomes.filterMap (fun i =>
      if 0 < i.value then some (LinkDatum.mk i.id "budget" i.value) else none))
    ++ (if 0 < debtTotal then [LinkDatum.mk "debt" "budget" debtTotal] else [])
    ++ (expenses.filterMap (fun e =>
      if 0 < e.value then some (LinkDatum.mk "budget" e.id e.value) else none))
    ++ (if 0 < savingsTotal then [LinkDatum.mk "budget" "savings" savingsTotal] else [])

/-- Pointwise update of a total-map (the `Map.set` of the source with a
default of `0` for absent keys). -/
def updF (f : String → ℚ) (k : String) (v : ℚ) : String → ℚ :=
  fun x => if x = k then v else f x

/-- The `nodeOut`/`nodeIn` accumulation loop over the links. -/
def accTotals (links : List LinkDatum) : (String → ℚ) × (String → ℚ) :=
  links.foldl
    (fun p l =>
      (updF p.1 l.source (p.1 l.source + l.value), updF p.2 l.target (p.2 l.target + l.value)))
    (fun _ => 0, fun _ => 0)

/-- Sum of the values of the links leaving `id` (the closed form of the
`nodeOut` accumulation). -/
def outSum (links : List LinkDatum) (id : String) : ℚ :=
  ((links.filter (fun l => l.source = id)).map (fun l => l.value)).sum

/-- Sum of the values of the links entering `id` (the closed form of the
`nodeIn` accumulation). -/
def inSum (links : List LinkDatum) (id : String) : ℚ :=
  ((links.filter (fun l => l.target = id)).map (fun l => l.value)).sum

/-- `nodes`: every raw node's value is overwritten with
`max(vIn, vOut, declared)`. -/
def nodesOf (nodesRaw : List NodeDatum) (nIn nOut : String → ℚ) : List NodeDatum :=
  nodesRaw.map (fun n => { n with value := max (nIn n.id) (max (nOut n.id) n.value) })

/-- The graph builder: `none` models the early-returned empty-state
(`totalIncome ≤ 0 && totalExpense ≤ 0`, or an empty link list). -/
def buildGraph (incomeRows expenseRows : List Row) :
    Option (List NodeDatum × List LinkDatum) :=
  let incomes := incomesOf incomeRows
  let expenses := expensesOf expenseRows
  let tI := totalIncomeOf incomeRows
  let tE := totalExpenseOf expenseRows
  if tI ≤ 0 ∧ tE ≤ 0 then none
  else
    let debtTotal := debtTotalOf tI tE
    let savingsTotal := savingsTotalOf tI tE
    let budgetInTotal := tI + debtTotal
    let nodesRaw := nodesRawOf incomes expenses debtTotal savingsTotal budgetInTotal
    let links := linksOf incomes expenses debtTotal savingsTotal
    if links = [] then none
    else some (nodesOf nodesRaw (accTotals links).2 (accTotals links).1, links)

/-- The node list of the built graph (empty when the empty-state is
signalled). -/
def builtNodes (incomeRows expenseRows : List Row) : List NodeDatum :=
  match buildGraph incomeRows expenseRows with
  | none => []
  | some p => p.1

/-- The link list of the built graph (empty when the empty-state is
signalled). -/
def builtLinks (incomeRows expenseRows : List Row) : List LinkDatum :=
  match buildGraph incomeRows expenseRows with
  | none => []
  | some p => p.2

/-- First node carrying a given id (`nodeById` / `find` semantics). -/
def findNode (nodes : List NodeDatum) (id : String) : Option NodeDatum :=
  nodes.find? (fun n => n.id = id)

/-- Value of the node with the given id, `0` when absent (used to speak
about "the debt node value (0 if absent)"). -/
def nodeValueOr0 (nodes : List NodeDatum) (id : String) : ℚ :=
  match findNode nodes id with
  | none => 0
  | some n => n.value

/-- Kind of the node with the given id, if any. -/
def nodeKind (nodes : List NodeDatum) (id : String) : Option NodeType :=
  match findNode nodes id with
  | none => none
  | some n => some n.ntype

/-- Sum of the final values of the nodes of a given kind. -/
def kindValueSum (nodes : List NodeDatum) (t : NodeType) : ℚ :=
  ((nodes.filter (fun n => n.ntype = t)).map (fun n => n.value)).sum

/-! ## Column layout engine -/

/-- Layout constants of the source (`margin`, `nodeWidthPx`, `nodePadding`,
`minNodeHeight`). -/
def marginTop : ℚ := 24

def marginLeft : ℚ := 40

def marginRight : ℚ := 40

def marginBottom : ℚ := 24

def nodeWidthPx : ℚ := 18

def nodePadding : ℚ := 10

def minNodeHeight : ℚ := 8

/-- `innerWidth = Math.max(10, width − margin.left − margin.right)`. -/
def innerWidthOf (width : ℚ) : ℚ := max 10 (width - marginLeft - marginRight)

/-- `innerHeight = Math.max(10, height − margin.top − margin.bottom)`. -/
def innerHeightOf (height : ℚ) : ℚ := max 10 (height - marginTop - marginBottom)

/-- The up-to-three columns, keyed `source` / `budget` / `out`, each
carrying the node references of its kinds; empty columns are omitted. -/
def columnsOf (nodes : List NodeDatum) : List (String × List NodeDatum) :=
  let sources := nodes.filter (fun n => n.ntype = NodeType.income ∨ n.ntype = NodeType.debt)
  let budgetNodes := nodes.filter (fun n => n.ntype = NodeType.pool)
  let outs := nodes.filter (fun n => n.ntype = NodeType.expense ∨ n.ntype = NodeType.savings)
  (if sources ≠ [] then [("source", sources)] else [])
    ++ (if budgetNodes ≠ [] then [("budget", budgetNodes)] else [])
    ++ (if outs ≠ [] then [("out", outs)] else [])

/-- `d3.min`: `none` on an empty list, else the least element. -/
def d3min : List ℚ → Option ℚ
  | [] => none
  | x :: xs =>
    some (match d3min xs with
      | none => x
      | some m => min x m)

/-- `d3.max`: `none` on an empty list, else the greatest element. -/
def d3max : List ℚ → Option ℚ
  | [] => none
  | x :: xs =>
    some (match d3max xs with
      | none => x
      | some m => max x m)

/-- Total node value of a column. -/
def columnSum (col : String × List NodeDatum) : ℚ :=
  (col.2.map (fun n => n.value)).sum

/-- `pad = nodePadding * Math.max(colNodes.length − 1, 0)` (the `Nat`
subtraction already truncates at `0`). -/
def columnPad (pad : ℚ) (col : String × List NodeDatum) : ℚ :=
  pad * ((col.2.length - 1 : ℕ) : ℚ)

/-- The `kyCandidates` array: one candidate per column whose total value
is positive and whose padding leaves vertical room. -/
def kyCandidatesOf (innerHeight pad : ℚ) (columns : List (String × List NodeDatum)) :
    List ℚ :=
  columns.filterMap (fun col =>
    if 0 < columnSum col ∧ columnPad pad col < innerHeight then
      some ((innerHeight - columnPad pad col) / columnSum col)
    else none)

/-- `d3.max(nodes, d => d.value) || 1`: the denominator of the fallback
scale (empty list or a zero maximum fall back to `1`). -/
def fallbackDenom (nodes : List NodeDatum) : ℚ :=
  match d3max (nodes.map (fun n => n.value)) with
  | none => 1
  | some m => if m = 0 then 1 else m

/-- The global vertical scale `ky`.  In the rational model the only
non-finiteness source (division by zero) yields `0`, which the trailing
`ky ≤ 0` guard sends to `1` exactly as the source's
`!Number.isFinite(ky) || ky <= 0` guard does. -/
def kyOf (innerHeight pad : ℚ) (nodes : List NodeDatum)
    (columns : List (String × List NodeDatum)) : ℚ :=
  let ky :=
    match d3min (kyCandidatesOf innerHeight pad columns) with
    | some m => m
    | none => innerHeight / fallbackDenom nodes
  if ky ≤ 0 then 1 else ky

/-- Stack one column top to bottom: `height = max(minH, value*ky)`, `y`
accumulates `previous y + previous height + pad`. -/
def stackColumn (pad minH ky x : ℚ) (colKey : String) :
    List NodeDatum → ℚ → List NodeLayout
  | [], _ => []
  | n :: ns, yPos =>
    let h := max minH (n.value * ky)
    NodeLayout.mk n.id n.name n.ntype n.value colKey x yPos nodeWidthPx h
      :: stackColumn pad minH ky x colKey ns (yPos + h + pad)

/-- Horizontal spacing: `innerWidth / (nCol − 1)` for more than one
column, else `0`. -/
def colSpacingOf (innerWidth : ℚ) (nCol : ℕ) : ℚ :=
  if 1 < nCol then innerWidth / ((nCol - 1 : ℕ) : ℚ) else 0

/-- Pair every column with its index (the `forEach((col, colIndex))`). -/
def enumFrom {α : Type} (i : ℕ) : List α → List (ℕ × α)
  | [] => []
  | x :: xs => (i, x) :: enumFrom (i + 1) xs

/-- The per-column layout: each column `colIndex` is placed at
`margin.left + colIndex * colSpacing` and stacked from `margin.top`. -/
def layoutColumns (innerWidth pad minH ky : ℚ)
    (columns : List (String × List NodeDatum)) : List (String × List NodeLayout) :=
  let spacing := colSpacingOf innerWidth columns.length
  (enumFrom 0 columns).map (fun p =>
    (p.2.1, stackColumn pad minH ky (marginLeft + (p.1 : ℚ) * spacing) p.2.1 p.2.2 marginTop))

/-- The rendered scene: built graph, columns, global scale and layout. -/
structure Scene where
  nodes : List NodeDatum
  links : List LinkDatum
  columns : List (String × List NodeDatum)
  ky : ℚ
  layout : List (String × List NodeLayout)
deriving Repr

/-- The full render pipeline; `none` models the empty-state renders
(either of the graph builder's two guards, or the dead `!columns.length`
guard). -/
def renderOf (incomeRows expenseRows : List Row) (width height : ℚ) : Option Scene :=
  match buildGraph incomeRows expenseRows with
  | none => none
  | some (nodes, links) =>
    let columns := columnsOf nodes
    if columns = [] then none
    else
      let innerW := innerWidthOf width
      let innerH := innerHeightOf height
      let ky := kyOf innerH nodePadding nodes columns
      some (Scene.mk nodes links columns ky
        (layoutColumns innerW nodePadding minNodeHeight ky columns))

/-- Scene layout accessor (empty on the empty-state path). -/
def sceneLayout (incomeRows expenseRows : List Row) (width height : ℚ) :
    List (String × List NodeLayout) :=
  match renderOf incomeRows expenseRows width height with
  | none => []
  | some sc => sc.layout

/-- Scene scale accessor (`1` on the empty-state path). -/
def sceneKy (incomeRows expenseRows : List Row) (width height : ℚ) : ℚ :=
  match renderOf incomeRows expenseRows width height with
  | none => 1
  | some sc => sc.ky

/-! ## Link router (`updateLinkPaths`) -/

/-- JavaScript `a || b` on numbers (without `NaN`): keep `a` unless it is
`0`. -/
def jsOr (a b : ℚ) : ℚ := if a = 0 then b else a

/-- The vertical geometry of one routed link: the source-side slice spans
`[syTop, syBottom]` on the source's right edge and the target-side slice
spans `[tyTop, tyBottom]` on the target's left edge. -/
structure Slice where
  syTop : ℚ
  syBottom : ℚ
  tyTop : ℚ
  tyBottom : ℚ
deriving DecidableEq, Repr

/-- The body of `updateLinkPaths`: walk the link list in declaration
order, carrying the per-source and per-target offset accumulators; a link
whose endpoint lookup fails yields `none` (the `return ''` branch) and
leaves the accumulators untouched. -/
def routeAux (lookup : String → Option NodeLayout) (outF inF totF : String → ℚ) :
    List LinkDatum → (String → ℚ) → (String → ℚ) → List (Option Slice)
  | [], _, _ => []
  | l :: ls, sOff, tOff =>
    match lookup l.source, lookup l.target with
    | some s, some t =>
      let sTotal := jsOr (outF l.source) (jsOr (totF l.source) 0)
      let tTotal := jsOr (inF l.target) (jsOr (totF l.target) 0)
      let sH := if 0 < sTotal then l.value / sTotal * s.height else 0
      let tH := if 0 < tTotal then l.value / tTotal * t.height else 0
      let sUsed := sOff l.source
      let tUsed := tOff l.target
      some (Slice.mk (s.y + sUsed) (s.y + sUsed + sH) (t.y + tUsed) (t.y + tUsed + tH))
        :: routeAux lookup outF inF totF ls
            (updF sOff l.source (sUsed + sH)) (updF tOff l.target (tUsed + tH))
    | _, _ => none :: routeAux lookup outF inF totF ls sOff tOff

/-- `updateLinkPaths`: route every link starting from empty offset maps. -/
def updateLinkPaths (lookup : String → Option NodeLayout) (outF inF totF : String → ℚ)
    (links : List LinkDatum) : List (Option Slice) :=
  routeAux lookup outF inF totF links (fun _ => 0) (fun _ => 0)

/-- Source-side slice height of a routed link (`0` for an unrouted one). -/
def srcSliceHeight : Option Slice → ℚ
  | none => 0
  | some s => s.syBottom - s.syTop

/-- Target-side slice height of a routed link (`0` for an unrouted one). -/
def tgtSliceHeight : Option Slice → ℚ
  | none => 0
  | some s => s.tyBottom - s.tyTop

/-! ## Drag reordering (`dragBehaviour`'s `drag` handler) -/

/-- The slot centers the other nodes of the column would occupy if stacked
from `yPos` without the dragged node. -/
def slotCentersFrom (pad : ℚ) : List NodeLayout → ℚ → List ℚ
  | [], _ => []
  | n :: ns, yPos => (yPos + n.height / 2) :: slotCentersFrom pad ns (yPos + n.height + pad)

/-- The source's scan loop: `newIndex = 0; for i, if (centerD >
slotCenters[i]) newIndex = i + 1`. -/
def scanIndexFrom (centerD : ℚ) : List ℚ → ℕ → ℕ → ℕ
  | [], _, acc => acc
  | c :: cs, i, acc => scanIndexFrom centerD cs (i + 1) (if c < centerD then i + 1 else acc)

/-- The insertion index computed on a `drag` event for a node at
(already clamped) position `d.y`: top/bottom snap zones first, otherwise
the slot-center scan over the column without the dragged node. -/
def dragNewIndex (mTop innerHeight pad : ℚ) (colNodes : List NodeLayout)
    (d : NodeLayout) : ℕ :=
  let topSnapZone := mTop + pad * (1 / 2)
  let bottomSnapZone := mTop + innerHeight - pad * (1 / 2) - d.height
  if d.y ≤ topSnapZone then 0
  else if bottomSnapZone ≤ d.y then colNodes.length - 1
  else
    let others := colNodes.filter (fun n => ¬n.id = d.id)
    scanIndexFrom (d.y + d.height / 2) (slotCentersFrom pad others mTop) 0 0

/-- JavaScript `Array.findIndex` (as an `Option`, `none` for `-1`). -/
def findIndexFrom {α : Type} (p : α → Bool) : List α → ℕ → Option ℕ
  | [], _ => none
  | x :: xs, i => if p x then some i else findIndexFrom p xs (i + 1)

/-- `colNodes.splice(k, 0, a)`: insert at `k`, appending when `k` is past
the end. -/
def spliceInsert {α : Type} (k : ℕ) (a : α) (xs : List α) : List α :=
  xs.take k ++ a :: xs.drop k

/-- `colNodes.splice(k, 1)`: remove the element at `k` (no-op past the
end). -/
def spliceRemove {α : Type} (k : ℕ) (xs : List α) : List α :=
  xs.take k ++ xs.drop (k + 1)

/-- The logical-order update of one `drag` event: compute the insertion
index, and splice the dragged node there iff it differs from the node's
current index (`findIndex` by id; an absent node leaves the column
untouched, the handler's early return). -/
def dragReorder (mTop innerHeight pad : ℚ) (colNodes : List NodeLayout)
    (d : NodeLayout) : List NodeLayout :=
  let newIndex := dragNewIndex mTop innerHeight pad colNodes d
  match findIndexFrom (fun n => n.id = d.id) colNodes 0 with
  | none => colNodes
  | some currIndex =>
    if newIndex ≠ currIndex then spliceInsert newIndex d (spliceRemove currIndex colNodes)
    else colNodes

/-! ## Click highlight (`highlightFromNode`) -/

/-- The visited/queue state of the breadth-first traversal: visited node
ids, visited link indices, pending queue. -/
structure BfsState where
  vN : List String
  vL : List ℕ
  q : List String
deriving Repr

/-- The other endpoint of a link relative to `nid`
(`l.source === nid ? l.target : l.source`). -/
def otherEnd (nid : String) (l : LinkDatum) : String :=
  if l.source = nid then l.target else l.source

/-- The `links.forEach((l, idx))` body run while node `nid` is dequeued:
skip visited links, mark incident ones, enqueue unseen other endpoints. -/
def visitLinks (nid : String) : List (ℕ × LinkDatum) → BfsState → BfsState
  | [], st => st
  | (idx, l) :: rest, st =>
    if idx ∈ st.vL then visitLinks nid rest st
    else if l.source = nid ∨ l.target = nid then
      if otherEnd nid l ∈ st.vN then
        visitLinks nid rest (BfsState.mk st.vN (st.vL ++ [idx]) st.q)
      else
        visitLinks nid rest
          (BfsState.mk (st.vN ++ [otherEnd nid l]) (st.vL ++ [idx]) (st.q ++ [otherEnd nid l]))
    else visitLinks nid rest st

/-- The `while (queue.length)` loop, with explicit fuel (each iteration
dequeues one node; every enqueued id is fresh, so
`2 * links.length + 2` iterations always suffice for the star graphs at
hand, which the highlight theorem proves). -/
def bfsLoop (links : List LinkDatum) : ℕ → BfsState → BfsState
  | 0, st => st
  | fuel + 1, st =>
    match st.q with
    | [] => st
    | nid :: rest =>
      bfsLoop links fuel (visitLinks nid (enumFrom 0 links) (BfsState.mk st.vN st.vL rest))

/-- `highlightFromNode`: breadth-first traversal from `startId` over the
undirected link graph. -/
def highlightFromNode (links : List LinkDatum) (startId : String) : BfsState :=
  bfsLoop links (2 * links.length + 2) (BfsState.mk [startId] [] [startId])

/-! ## Identifier lemmas

The synthetic ids `debt`, `budget`, `savings` and the prefixed entry ids
`inc-…` / `exp-…` are pairwise distinct, which everything about the star
topology rests on. -/

theorem ne_of_head {a b : String} (h : a.data.head? ≠ b.data.head?) : a ≠ b :=
  fun e => h (by rw [e])

theorem inc_ne_exp (x y : String) : ("inc-" ++ x) ≠ ("exp-" ++ y) :=
  ne_of_head (fun h => by
    rw [show ("inc-" ++ x).data.head? = some 'i' from rfl,
        show ("exp-" ++ y).data.head? = some 'e' from rfl] at h
    exact absurd (Option.some.inj h) (by decide))

theorem inc_ne_debt (x : String) : ("inc-" ++ x) ≠ "debt" :=
  ne_of_head (fun h => by
    rw [show ("inc-" ++ x).data.head? = some 'i' from rfl] at h
    exact absurd (Option.some.inj h) (by decide))

theorem inc_ne_budget (x : String) : ("inc-" ++ x) ≠ "budget" :=
  ne_of_head (fun h => by
    rw [show ("inc-" ++ x).data.head? = some 'i' from rfl] at h
    exact absurd (Option.some.inj h) (by decide))

theorem inc_ne_savings (x : String) : ("inc-" ++ x) ≠ "savings" :=
  ne_of_head (fun h => by
    rw [show ("inc-" ++ x).data.head? = some 'i' from rfl] at h
    exact absurd (Option.some.inj h) (by decide))

theorem exp_ne_debt (x : String) : ("exp-" ++ x) ≠ "debt" :=
  ne_of_head (fun h => by
    rw [show ("exp-" ++ x).data.head? = some 'e' from rfl] at h
    exact absurd (Option.some.inj h) (by decide))

theorem exp_ne_budget (x : String) : ("exp-" ++ x) ≠ "budget" :=
  ne_of_head (fun h => by
    rw [show ("exp-" ++ x).data.head? = some 'e' from rfl] at h
    exact absurd (Option.some.inj h) (by decide))

theorem exp_ne_savings (x : String) : ("exp-" ++ x) ≠ "savings" :=
  ne_of_head (fun h => by
    rw [show ("exp-" ++ x).data.head? = some 'e' from rfl] at h
    exact absurd (Option.some.inj h) (by decide))

theorem str_append_left_cancel {p a b : String} (h : p ++ a = p ++ b) : a = b := by
  have hd : p.data ++ a.data = p.data ++ b.data := congrArg String.data h
  exact congrArg String.mk (List.append_cancel_left hd)

/-! ## The `nodeIn` / `nodeOut` accumulators -/

theorem accTotals_fst (links : List LinkDatum) (id : String) :
    (accTotals links).1 id = outSum links id := by
  suffices h : ∀ (f g : String → ℚ),
      (links.foldl
        (fun p l =>
          (updF p.1 l.source (p.1 l.source + l.value),
           updF p.2 l.target (p.2 l.target + l.value))) (f, g)).1 id
        = f id + outSum links id by
    simpa using h (fun _ => 0) (fun _ => 0)
  induction links with
  | nil => intro f g; simp [outSum]
  | cons l ls ih =>
    intro f g
    rw [List.foldl_cons, ih]
    by_cases hs : l.source = id
    · subst hs
      simp [outSum, updF]
      ring
    · have : ¬id = l.source := fun e => hs e.symm
      simp [outSum, updF, hs, this]

theorem accTotals_snd (links : List LinkDatum) (id : String) :
    (accTotals links).2 id = inSum links id := by
  suffices h : ∀ (f g : String → ℚ),
      (links.foldl
        (fun p l =>
          (updF p.1 l.source (p.1 l.source + l.value),
           updF p.2 l.target (p.2 l.target + l.value))) (f, g)).2 id
        = g id + inSum links id by
    simpa using h (fun _ => 0) (fun _ => 0)
  induction links with
  | nil => intro f g; simp [inSum]
  | cons l ls ih =>
    intro f g
    rw [List.foldl_cons, ih]
    by_cases ht : l.target = id
    · subst ht
      simp [inSum, updF]
      ring
    · have : ¬id = l.target := fun e => ht e.symm
      simp [inSum, updF, ht, this]

theorem outSum_append (l1 l2 : List LinkDatum) (id : String) :
    outSum (l1 ++ l2) id = outSum l1 id + outSum l2 id := by
  simp [outSum, List.filter_append]

theorem inSum_append (l1 l2 : List LinkDatum) (id : String) :
    inSum (l1 ++ l2) id = inSum l1 id + inSum l2 id := by
  simp [inSum, List.filter_append]

theorem outSum_nil (id : String) : outSum [] id = 0 := rfl

theorem inSum_nil (id : String) : inSum [] id = 0 := rfl

theorem outSum_single (a b : String) (v : ℚ) (id : String) :
    outSum [LinkDatum.mk a b v] id = if a = id then v else 0 := by
  by_cases h : a = id <;> simp [outSum, h]

theorem inSum_single (a b : String) (v : ℚ) (id : String) :
    inSum [LinkDatum.mk a b v] id = if b = id then v else 0 := by
  by_cases h : b = id <;> simp [inSum, h]

/-! ## The four link blocks -/

/-- With every retained entry strictly positive, the guarded income-link
loop is a plain map. -/
theorem income_block_eq_map (incomes : List Item) (h : ∀ i ∈ incomes, 0 < i.value) :
    incomes.filterMap
      (fun i => if 0 < i.value then some (LinkDatum.mk i.id "budget" i.value) else none)
      = incomes.map (fun i => LinkDatum.mk i.id "budget" i.value) := by
  induction incomes with
  | nil => rfl
  | cons a as ih =>
    have ha : 0 < a.value := h a (List.mem_cons_self a as)
    simp [List.filterMap_cons, ha, ih (fun i hi => h i (List.mem_cons_of_mem a hi))]

/-- Same for the expense-link loop. -/
theorem expense_block_eq_map (expenses : List Item) (h : ∀ e ∈ expenses, 0 < e.value) :
    expenses.filterMap
      (fun e => if 0 < e.value then some (LinkDatum.mk "budget" e.id e.value) else none)
      = expenses.map (fun e => LinkDatum.mk "budget" e.id e.value) := by
  induction expenses with
  | nil => rfl
  | cons a as ih =>
    have ha : 0 < a.value := h a (List.mem_cons_self a as)
    simp [List.filterMap_cons, ha, ih (fun i hi => h i (List.mem_cons_of_mem a hi))]

theorem outSum_map_inc (incomes : List Item) (id : String) :
    outSum (incomes.map (fun i => LinkDatum.mk i.id "budget" i.value)) id
      = ((incomes.filter (fun i => i.id = id)).map (fun i => i.value)).sum := by
  induction incomes with
  | nil => rfl
  | cons a as ih =>
    by_cases h : a.id = id <;> simp [outSum, h] at ih ⊢ <;> simp [ih]

theorem inSum_map_inc (incomes : List Item) (id : String) :
    inSum (incomes.map (fun i => LinkDatum.mk i.id "budget" i.value)) id
      = if "budget" = id then (incomes.map (fun i => i.value)).sum else 0 := by
  induction incomes with
  | nil => simp [inSum]
  | cons a as ih =>
    by_cases h : "budget" = id <;> simp [inSum, h] at ih ⊢ <;> simp [ih]

theorem outSum_map_exp (expenses : List Item) (id : String) :
    outSum (expenses.map (fun e => LinkDatum.mk "budget" e.id e.value)) id
      = if "budget" = id then (expenses.map (fun e => e.value)).sum else 0 := by
  induction expenses with
  | nil => simp [outSum]
  | cons a as ih =>
    by_cases h : "budget" = id <;> simp [outSum, h] at ih ⊢ <;> simp [ih]

theorem inSum_map_exp (expenses : List Item) (id : String) :
    inSum (expenses.map (fun e => LinkDatum.mk "budget" e.id e.value)) id
      = ((expenses.filter (fun e => e.id = id)).map (fun e => e.value)).sum := by
  induction expenses with
  | nil => rfl
  | cons a as ih =>
    by_cases h : a.id = id <;> simp [inSum, h] at ih ⊢ <;> simp [ih]

/-! ## Retained-entry facts -/

theorem mem_incomesOf {rows : List Row} {i : Item} (h : i ∈ incomesOf rows) :
    0 < i.value ∧ ∃ r ∈ rows, i.id = "inc-" ++ r.id := by
  unfold incomesOf at h
  rcases List.mem_filter.mp h with ⟨hmem, hpos⟩
  rcases List.mem_map.mp hmem with ⟨r, hr, rfl⟩
  exact ⟨by simpa using hpos, r, hr, rfl⟩

theorem mem_expensesOf {rows : List Row} {e : Item} (h : e ∈ expensesOf rows) :
    0 < e.value ∧ ∃ r ∈ rows, e.id = "exp-" ++ r.id := by
  unfold expensesOf at h
  rcases List.mem_filter.mp h with ⟨hmem, hpos⟩
  rcases List.mem_map.mp hmem with ⟨r, hr, rfl⟩
  exact ⟨by simpa using hpos, r, hr, rfl⟩

theorem incomesOf_pos {rows : List Row} : ∀ i ∈ incomesOf rows, 0 < i.value :=
  fun _ hi => (mem_incomesOf hi).1

theorem expensesOf_pos {rows : List Row} : ∀ e ∈ expensesOf rows, 0 < e.value :=
  fun _ he => (mem_expensesOf he).1

theorem incomesOf_id_nodup {rows : List Row} (h : (rows.map Row.id).Nodup) :
    ((incomesOf rows).map Item.id).Nodup := by
  have hinj : Function.Injective (fun s => "inc-" ++ s : String → String) :=
    fun a b hab => str_append_left_cancel hab
  have hall : ((rows.map (fun r =>
      Item.mk ("inc-" ++ r.id) (if r.label = "" then "Income" else r.label) r.value)).map
        Item.id).Nodup := by
    rw [List.map_map]
    have : (Item.id ∘ fun r =>
        Item.mk ("inc-" ++ r.id) (if r.label = "" then "Income" else r.label) r.value)
        = (fun s => "inc-" ++ s) ∘ Row.id := rfl
    rw [this, ← List.map_map]
    exact h.map hinj
  exact (List.Sublist.map Item.id (List.filter_sublist _)).nodup hall

theorem expensesOf_id_nodup {rows : List Row} (h : (rows.map Row.id).Nodup) :
    ((expensesOf rows).map Item.id).Nodup := by
  have hinj : Function.Injective (fun s => "exp-" ++ s : String → String) :=
    fun a b hab => str_append_left_cancel hab
  have hall : ((rows.map (fun r =>
      Item.mk ("exp-" ++ r.id) (if r.label = "" then "Expense" else r.label) r.value)).map
        Item.id).Nodup := by
    rw [List.map_map]
    have : (Item.id ∘ fun r =>
        Item.mk ("exp-" ++ r.id) (if r.label = "" then "Expense" else r.label) r.value)
        = (fun s => "exp-" ++ s) ∘ Row.id := rfl
    rw [this, ← List.map_map]
    exact h.map hinj
  exact (List.Sublist.map Item.id (List.filter_sublist _)).nodup hall

/-- With pairwise distinct ids, filtering a list for one member's id
leaves exactly that member. -/
theorem filter_id_eq_singleton {I : List Item} {r : Item} (hr : r ∈ I)
    (hnd : (I.map Item.id).Nodup) : I.filter (fun i => i.id = r.id) = [r] := by
  induction I with
  | nil => cases hr
  | cons a as ih =>
    rw [List.map_cons, List.nodup_cons] at hnd
    rcases List.mem_cons.mp hr with rfl | hras
    · have hnone : as.filter (fun i => i.id = r.id) = [] := by
        apply List.filter_eq_nil_iff.mpr
        intro i hi hid
        exact hnd.1 (by
          rw [← (by simpa using hid : i.id = r.id)]
          exact List.mem_map_of_mem Item.id hi)
      simp [List.filter_cons, hnone]
    · have hne : ¬a.id = r.id := by
        intro he
        exact hnd.1 (he ▸ List.mem_map_of_mem Item.id hras)
      simp [List.filter_cons, hne, ih hras hnd.2]

/-! ## `linksOf` in closed form, and per-id flow sums -/

/-- With all retained entries positive the link list is exactly the four
blocks, without the redundant inner guards. -/
theorem linksOf_eq (I E : List Item) (dT sT : ℚ)
    (hIpos : ∀ i ∈ I, 0 < i.value) (hEpos : ∀ e ∈ E, 0 < e.value) :
    linksOf I E dT sT
      = I.map (fun i => LinkDatum.mk i.id "budget" i.value)
        ++ (if 0 < dT then [LinkDatum.mk "debt" "budget" dT] else [])
        ++ E.map (fun e => LinkDatum.mk "budget" e.id e.value)
        ++ (if 0 < sT then [LinkDatum.mk "budget" "savings" sT] else []) := by
  unfold linksOf
  rw [income_block_eq_map I hIpos, expense_block_eq_map E hEpos]

theorem mem_linksOf {I E : List Item} {dT sT : ℚ}
    (hIpos : ∀ i ∈ I, 0 < i.value) (hEpos : ∀ e ∈ E, 0 < e.value) {l : LinkDatum} :
    l ∈ linksOf I E dT sT ↔
      (∃ i ∈ I, l = LinkDatum.mk i.id "budget" i.value)
        ∨ (0 < dT ∧ l = LinkDatum.mk "debt" "budget" dT)
        ∨ (∃ e ∈ E, l = LinkDatum.mk "budget" e.id e.value)
        ∨ (0 < sT ∧ l = LinkDatum.mk "budget" "savings" sT) := by
  rw [linksOf_eq I E dT sT hIpos hEpos]
  by_cases hd : 0 < dT <;> by_cases hs : 0 < sT <;>
    simp [hd, hs, List.mem_append, List.mem_map, eq_comm, or_assoc]

/-- Every built link touches the pool. -/
theorem linksOf_star {I E : List Item} {dT sT : ℚ}
    (hIpos : ∀ i ∈ I, 0 < i.value) (hEpos : ∀ e ∈ E, 0 < e.value) {l : LinkDatum}
    (hl : l ∈ linksOf I E dT sT) : l.source = "budget" ∨ l.target = "budget" := by
  rcases (mem_linksOf hIpos hEpos).mp hl with ⟨i, _, rfl⟩ | ⟨_, rfl⟩ | ⟨e, _, rfl⟩ | ⟨_, rfl⟩
  · exact Or.inr rfl
  · exact Or.inr rfl
  · exact Or.inl rfl
  · exact Or.inl rfl

theorem outSum_linksOf_inc {I E : List Item} {dT sT : ℚ} {r : Item} (hr : r ∈ I)
    (hnd : (I.map Item.id).Nodup)
    (hIpos : ∀ i ∈ I, 0 < i.value) (hEpos : ∀ e ∈ E, 0 < e.value)
    (hIshape : ∀ i ∈ I, ∃ s, i.id = "inc-" ++ s) :
    outSum (linksOf I E dT sT) r.id = r.value := by
  obtain ⟨s, hs⟩ := hIshape r hr
  rw [linksOf_eq I E dT sT hIpos hEpos, outSum_append, outSum_append, outSum_append,
    outSum_map_inc, filter_id_eq_singleton hr hnd, outSum_map_exp]
  have hb : ¬("budget" = r.id) := fun h => inc_ne_budget s (hs ▸ h.symm)
  have hd : ¬("debt" = r.id) := fun h => inc_ne_debt s (hs ▸ h.symm)
  by_cases h1 : 0 < dT <;> by_cases h2 : 0 < sT <;>
    simp [h1, h2, outSum_single, outSum_nil, hb, hd]

theorem inSum_linksOf_inc {I E : List Item} {dT sT : ℚ} {r : Item} (hr : r ∈ I)
    (hIpos : ∀ i ∈ I, 0 < i.value) (hEpos : ∀ e ∈ E, 0 < e.value)
    (hIshape : ∀ i ∈ I, ∃ s, i.id = "inc-" ++ s)
    (hEshape : ∀ e ∈ E, ∃ s, e.id = "exp-" ++ s) :
    inSum (linksOf I E dT sT) r.id = 0 := by
  obtain ⟨s, hs⟩ := hIshape r hr
  rw [linksOf_eq I E dT sT hIpos hEpos, inSum_append, inSum_append, inSum_append,
    inSum_map_inc, inSum_map_exp]
  have hb : ¬("budget" = r.id) := fun h => inc_ne_budget s (hs ▸ h.symm)
  have hsv : ¬("savings" = r.id) := fun h => inc_ne_savings s (hs ▸ h.symm)
  have hfil : E.filter (fun e => e.id = r.id) = [] := by
    apply List.filter_eq_nil_iff.mpr
    intro e he hid
    obtain ⟨t, ht⟩ := hEshape e he
    exact inc_ne_exp s t (by rw [← hs, ← ht]; exact (by simpa using hid : e.id = r.id).symm)
  by_cases h1 : 0 < dT <;> by_cases h2 : 0 < sT <;>
    simp [h1, h2, inSum_single, inSum_nil, hb, hsv, hfil]

theorem inSum_linksOf_exp {I E : List Item} {dT sT : ℚ} {r : Item} (hr : r ∈ E)
    (hnd : (E.map Item.id).Nodup)
    (hIpos : ∀ i ∈ I, 0 < i.value) (hEpos : ∀ e ∈ E, 0 < e.value)
    (hEshape : ∀ e ∈ E, ∃ s, e.id = "exp-" ++ s) :
    inSum (linksOf I E dT sT) r.id = r.value := by
  obtain ⟨s, hs⟩ := hEshape r hr
  rw [linksOf_eq I E dT sT hIpos hEpos, inSum_append, inSum_append, inSum_append,
    inSum_map_inc, inSum_map_exp, filter_id_eq_singleton hr hnd]
  have hb : ¬("budget" = r.id) := fun h => exp_ne_budget s (hs ▸ h.symm)
  have hsv : ¬("savings" = r.id) := fun h => exp_ne_savings s (hs ▸ h.symm)
  by_cases h1 : 0 < dT <;> by_cases h2 : 0 < sT <;>
    simp [h1, h2, inSum_single, inSum_nil, hb, hsv]

theorem outSum_linksOf_exp {I E : List Item} {dT sT : ℚ} {r : Item} (hr : r ∈ E)
    (hIpos : ∀ i ∈ I, 0 < i.value) (hEpos : ∀ e ∈ E, 0 < e.value)
    (hIshape : ∀ i ∈ I, ∃ s, i.id = "inc-" ++ s)
    (hEshape : ∀ e ∈ E, ∃ s, e.id = "exp-" ++ s) :
    outSum (linksOf I E dT sT) r.id = 0 := by
  obtain ⟨s, hs⟩ := hEshape r hr
  rw [linksOf_eq I E dT sT hIpos hEpos, outSum_append, outSum_append, outSum_append,
    outSum_map_inc, outSum_map_exp]
  have hb : ¬("budget" = r.id) := fun h => exp_ne_budget s (hs ▸ h.symm)
  have hd : ¬("debt" = r.id) := fun h => exp_ne_debt s (hs ▸ h.symm)
  have hfil : I.filter (fun i => i.id = r.id) = [] := by
    apply List.filter_eq_nil_iff.mpr
    intro i hi hid
    obtain ⟨t, ht⟩ := hIshape i hi
    exact inc_ne_exp t s (by rw [← hs, ← ht]; exact (by simpa using hid : i.id = r.id))
  by_cases h1 : 0 < dT <;> by_cases h2 : 0 < sT <;>
    simp [h1, h2, outSum_single, outSum_nil, hb, hd, hfil]

theorem inSum_linksOf_budget {I E : List Item} {dT sT : ℚ}
    (hIpos : ∀ i ∈ I, 0 < i.value) (hEpos : ∀ e ∈ E, 0 < e.value)
    (hEshape : ∀ e ∈ E, ∃ s, e.id = "exp-" ++ s) :
    inSum (linksOf I E dT sT) "budget"
      = (I.map (fun i => i.value)).sum + (if 0 < dT then dT else 0) := by
  rw [linksOf_eq I E dT sT hIpos hEpos, inSum_append, inSum_append, inSum_append,
    inSum_map_inc, inSum_map_exp]
  have hfil : E.filter (fun e => e.id = "budget") = [] := by
    apply List.filter_eq_nil_iff.mpr
    intro e he hid
    obtain ⟨t, ht⟩ := hEshape e he
    exact exp_ne_budget t (ht ▸ (by simpa using hid : e.id = "budget"))
  by_cases h1 : 0 < dT <;> by_cases h2 : 0 < sT <;>
    simp [h1, h2, inSum_single, inSum_nil, hfil]

theorem outSum_linksOf_budget {I E : List Item} {dT sT : ℚ}
    (hIpos : ∀ i ∈ I, 0 < i.value) (hEpos : ∀ e ∈ E, 0 < e.value)
    (hIshape : ∀ i ∈ I, ∃ s, i.id = "inc-" ++ s) :
    outSum (linksOf I E dT sT) "budget"
      = (E.map (fun e => e.value)).sum + (if 0 < sT then sT else 0) := by
  rw [linksOf_eq I E dT sT hIpos hEpos, outSum_append, outSum_append, outSum_append,
    outSum_map_inc, outSum_map_exp]
  have hfil : I.filter (fun i => i.id = "budget") = [] := by
    apply List.filter_eq_nil_iff.mpr
    intro i hi hid
    obtain ⟨t, ht⟩ := hIshape i hi
    exact inc_ne_budget t (ht ▸ (by simpa using hid : i.id = "budget"))
  by_cases h1 : 0 < dT <;> by_cases h2 : 0 < sT <;>
    simp [h1, h2, outSum_single, outSum_nil, hfil]

theorem outSum_linksOf_debt {I E : List Item} {dT sT : ℚ}
    (hIpos : ∀ i ∈ I, 0 < i.value) (hEpos : ∀ e ∈ E, 0 < e.value)
    (hIshape : ∀ i ∈ I, ∃ s, i.id = "inc-" ++ s) :
    outSum (linksOf I E dT sT) "debt" = if 0 < dT then dT else 0 := by
  rw [linksOf_eq I E dT sT hIpos hEpos, outSum_append, outSum_append, outSum_append,
    outSum_map_inc, outSum_map_exp]
  have hfil : I.filter (fun i => i.id = "debt") = [] := by
    apply List.filter_eq_nil_iff.mpr
    intro i hi hid
    obtain ⟨t, ht⟩ := hIshape i hi
    exact inc_ne_debt t (ht ▸ (by simpa using hid : i.id = "debt"))
  by_cases h1 : 0 < dT <;> by_cases h2 : 0 < sT <;>
    simp [h1, h2, outSum_single, outSum_nil, hfil]

theorem inSum_linksOf_debt {I E : List Item} {dT sT : ℚ}
    (hIpos : ∀ i ∈ I, 0 < i.value) (hEpos : ∀ e ∈ E, 0 < e.value)
    (hEshape : ∀ e ∈ E, ∃ s, e.id = "exp-" ++ s) :
    inSum (linksOf I E dT sT) "debt" = 0 := by
  rw [linksOf_eq I E dT sT hIpos hEpos, inSum_append, inSum_append, inSum_append,
    inSum_map_inc, inSum_map_exp]
  have hfil : E.filter (fun e => e.id = "debt") = [] := by
    apply List.filter_eq_nil_iff.mpr
    intro e he hid
    obtain ⟨t, ht⟩ := hEshape e he
    exact exp_ne_debt t (ht ▸ (by simpa using hid : e.id = "debt"))
  by_cases h1 : 0 < dT <;> by_cases h2 : 0 < sT <;>
    simp [h1, h2, inSum_single, inSum_nil, hfil]

theorem inSum_linksOf_savings {I E : List Item} {dT sT : ℚ}
    (hIpos : ∀ i ∈ I, 0 < i.value) (hEpos : ∀ e ∈ E, 0 < e.value)
    (hEshape : ∀ e ∈ E, ∃ s, e.id = "exp-" ++ s) :
    inSum (linksOf I E dT sT) "savings" = if 0 < sT then sT else 0 := by
  rw [linksOf_eq I E dT sT hIpos hEpos, inSum_append, inSum_append, inSum_append,
    inSum_map_inc, inSum_map_exp]
  have hfil : E.filter (fun e => e.id = "savings") = [] := by
    apply List.filter_eq_nil_iff.mpr
    intro e he hid
    obtain ⟨t, ht⟩ := hEshape e he
    exact exp_ne_savings t (ht ▸ (by simpa using hid : e.id = "savings"))
  by_cases h1 : 0 < dT <;> by_cases h2 : 0 < sT <;>
    simp [h1, h2, inSum_single, inSum_nil, hfil]

theorem outSum_linksOf_savings {I E : List Item} {dT sT : ℚ}
    (hIpos : ∀ i ∈ I, 0 < i.value) (hEpos : ∀ e ∈ E, 0 < e.value)
    (hIshape : ∀ i ∈ I, ∃ s, i.id = "inc-" ++ s) :
    outSum (linksOf I E dT sT) "savings" = 0 := by
  rw [linksOf_eq I E dT sT hIpos hEpos, outSum_append, outSum_append, outSum_append,
    outSum_map_inc, outSum_map_exp]
  have hfil : I.filter (fun i => i.id = "savings") = [] := by
    apply List.filter_eq_nil_iff.mpr
    intro i hi hid
    obtain ⟨t, ht⟩ := hIshape i hi
    exact inc_ne_savings t (ht ▸ (by simpa using hid : i.id = "savings"))
  by_cases h1 : 0 < dT <;> by_cases h2 : 0 < sT <;>
    simp [h1, h2, outSum_single, outSum_nil, hfil]

/-! ## Totals, the balancing node, and the built graph unfolded -/

theorem totalIncomeOf_nonneg (rows : List Row) : 0 ≤ totalIncomeOf rows := by
  apply List.sum_nonneg
  intro a ha
  rcases List.mem_map.mp ha with ⟨i, hi, rfl⟩
  exact le_of_lt (incomesOf_pos i hi)

theorem totalExpenseOf_nonneg (rows : List Row) : 0 ≤ totalExpenseOf rows := by
  apply List.sum_nonneg
  intro a ha
  rcases List.mem_map.mp ha with ⟨e, he, rfl⟩
  exact le_of_lt (expensesOf_pos e he)

theorem debtTotalOf_nonneg (tI tE : ℚ) : 0 ≤ debtTotalOf tI tE := by
  unfold debtTotalOf
  split <;> [linarith; exact le_refl 0]

theorem savingsTotalOf_nonneg (tI tE : ℚ) : 0 ≤ savingsTotalOf tI tE := by
  unfold savingsTotalOf
  split
  · exact le_refl 0
  · next hlt => linarith [not_lt.mp hlt]

/-- `totalIncome + debt = totalExpense + savings`: the two synthetic
totals rebalance the pool exactly. -/
theorem pool_balance (tI tE : ℚ) :
    tI + debtTotalOf tI tE = tE + savingsTotalOf tI tE := by
  unfold debtTotalOf savingsTotalOf
  split <;> ring

theorem debt_savings_mutex (tI tE : ℚ) :
    debtTotalOf tI tE = 0 ∨ savingsTotalOf tI tE = 0 := by
  unfold debtTotalOf savingsTotalOf
  split
  · exact Or.inr rfl
  · exact Or.inl rfl

theorem debt_savings_zero_iff (tI tE : ℚ) :
    (debtTotalOf tI tE = 0 ∧ savingsTotalOf tI tE = 0) ↔ tI = tE := by
  unfold debtTotalOf savingsTotalOf
  split <;> constructor
  · rintro ⟨h1, -⟩; linarith
  · intro h; constructor <;> linarith
  · rintro ⟨-, h2⟩; linarith
  · intro h; constructor <;> [rfl; linarith]

/-- Past the first guard the link list cannot be empty, so the second
guard of the builder never fires. -/
theorem linksOf_ne_nil {rI rE : List Row} (h : ¬(totalIncomeOf rI ≤ 0 ∧ totalExpenseOf rE ≤ 0))
    (dT sT : ℚ) : linksOf (incomesOf rI) (expensesOf rE) dT sT ≠ [] := by
  rw [linksOf_eq _ _ _ _ incomesOf_pos expensesOf_pos]
  have hcases : 0 < totalIncomeOf rI ∨ 0 < totalExpenseOf rE := by
    by_contra hc
    push_neg at hc
    exact h hc
  rcases hcases with hI | hE
  · have hne : incomesOf rI ≠ [] := by
      intro he
      rw [totalIncomeOf, he] at hI
      simp at hI
    intro hnil
    simp only [List.append_eq_nil, List.map_eq_nil_iff] at hnil
    exact hne hnil.1.1.1
  · have hne : expensesOf rE ≠ [] := by
      intro he
      rw [totalExpenseOf, he] at hE
      simp at hE
    intro hnil
    simp only [List.append_eq_nil, List.map_eq_nil_iff] at hnil
    exact hne hnil.1.2

/-- The builder past its guards, in closed form. -/
theorem buildGraph_some (rI rE : List Row)
    (h : ¬(totalIncomeOf rI ≤ 0 ∧ totalExpenseOf rE ≤ 0)) :
    buildGraph rI rE = some
      (nodesOf
        (nodesRawOf (incomesOf rI) (expensesOf rE)
          (debtTotalOf (totalIncomeOf rI) (totalExpenseOf rE))
          (savingsTotalOf (totalIncomeOf rI) (totalExpenseOf rE))
          (totalIncomeOf rI + debtTotalOf (totalIncomeOf rI) (totalExpenseOf rE)))
        (accTotals (linksOf (incomesOf rI) (expensesOf rE)
          (debtTotalOf (totalIncomeOf rI) (totalExpenseOf rE))
          (savingsTotalOf (totalIncomeOf rI) (totalExpenseOf rE)))).2
        (accTotals (linksOf (incomesOf rI) (expensesOf rE)
          (debtTotalOf (totalIncomeOf rI) (totalExpenseOf rE))
          (savingsTotalOf (totalIncomeOf rI) (totalExpenseOf rE)))).1,
       linksOf (incomesOf rI) (expensesOf rE)
         (debtTotalOf (totalIncomeOf rI) (totalExpenseOf rE))
         (savingsTotalOf (totalIncomeOf rI) (totalExpenseOf rE))) := by
  simp only [buildGraph]
  rw [if_neg h, if_neg (linksOf_ne_nil h _ _)]

/-! ## Node-list decomposition -/

theorem filter_kind_map {α : Type} (f : α → NodeDatum) (t : NodeType)
    (h : ∀ a, (f a).ntype = t) (l : List α) :
    (l.map f).filter (fun n => n.ntype = t) = l.map f := by
  induction l with
  | nil => rfl
  | cons a as ih => simp [List.filter_cons, h a, ih]

theorem filter_kind_map_ne {α : Type} (f : α → NodeDatum) (t : NodeType)
    (h : ∀ a, ¬(f a).ntype = t) (l : List α) :
    (l.map f).filter (fun n => n.ntype = t) = [] := by
  induction l with
  | nil => rfl
  | cons a as ih => simp [List.filter_cons, h a, ih]

theorem find?_append_of_none {α : Type} {p : α → Bool} {l1 l2 : List α}
    (h : l1.find? p = none) : (l1 ++ l2).find? p = l2.find? p := by
  induction l1 with
  | nil => rfl
  | cons a as ih =>
    by_cases hp : p a
    · rw [List.find?_cons_of_pos _ hp] at h
      exact absurd h (by simp)
    · rw [List.find?_cons_of_neg _ hp] at h
      rw [List.cons_append, List.find?_cons_of_neg _ hp]
      exact ih h

theorem ite_pos_self {x : ℚ} (hx : 0 ≤ x) : (if 0 < x then x else 0) = x := by
  split
  · rfl
  · next hneg => linarith [not_lt.mp hneg]

theorem filter_map_ite_singleton_none {p : NodeDatum → Bool} (g : NodeDatum → NodeDatum)
    (c : Prop) [Decidable c] (x : NodeDatum) (h : ¬p (g x) = true) :
    (((if c then [x] else []) : List NodeDatum).map g).filter p = [] := by
  split <;> simp [h]

/-- The income nodes of the adjusted node list, in closed form. -/
theorem nodes_filter_income (I E : List Item) (dT sT bT : ℚ) (nIn nOut : String → ℚ) :
    (nodesOf (nodesRawOf I E dT sT bT) nIn nOut).filter (fun n => n.ntype = NodeType.income)
      = I.map (fun i =>
          NodeDatum.mk i.id i.label NodeType.income (max (nIn i.id) (max (nOut i.id) i.value))) := by
  unfold nodesOf nodesRawOf
  rw [List.map_append, List.map_append, List.map_append, List.map_append]
  rw [List.filter_append, List.filter_append, List.filter_append, List.filter_append]
  have hI : ((I.map (fun i => NodeDatum.mk i.id i.label NodeType.income i.value)).map
      (fun n => { n with value := max (nIn n.id) (max (nOut n.id) n.value) })).filter
        (fun n => n.ntype = NodeType.income)
      = (I.map (fun i => NodeDatum.mk i.id i.label NodeType.income i.value)).map
          (fun n => { n with value := max (nIn n.id) (max (nOut n.id) n.value) }) := by
    apply List.filter_eq_self.mpr
    intro n hn
    rcases List.mem_map.mp hn with ⟨y, hy, rfl⟩
    rcases List.mem_map.mp hy with ⟨i, hi, rfl⟩
    simp
  have hE : ((E.map (fun e => NodeDatum.mk e.id e.label NodeType.expense e.value)).map
      (fun n => { n with value := max (nIn n.id) (max (nOut n.id) n.value) })).filter
        (fun n => n.ntype = NodeType.income) = [] := by
    apply List.filter_eq_nil_iff.mpr
    intro n hn
    rcases List.mem_map.mp hn with ⟨y, hy, rfl⟩
    rcases List.mem_map.mp hy with ⟨e, he, rfl⟩
    simp
  rw [hI, hE, filter_map_ite_singleton_none _ _ _ (by simp),
    filter_map_ite_singleton_none _ _ _ (by simp)]
  rw [List.map_cons, List.map_nil, List.filter_cons_of_neg (by simp), List.filter_nil]
  rw [List.append_nil, List.append_nil, List.append_nil, List.append_nil, List.map_map]
  rfl

/-- The expense nodes of the adjusted node list, in closed form. -/
theorem nodes_filter_expense (I E : List Item) (dT sT bT : ℚ) (nIn nOut : String → ℚ) :
    (nodesOf (nodesRawOf I E dT sT bT) nIn nOut).filter (fun n => n.ntype = NodeType.expense)
      = E.map (fun e =>
          NodeDatum.mk e.id e.label NodeType.expense (max (nIn e.id) (max (nOut e.id) e.value))) := by
  unfold nodesOf nodesRawOf
  rw [List.map_append, List.map_append, List.map_append, List.map_append]
  rw [List.filter_append, List.filter_append, List.filter_append, List.filter_append]
  have hE : ((E.map (fun e => NodeDatum.mk e.id e.label NodeType.expense e.value)).map
      (fun n => { n with value := max (nIn n.id) (max (nOut n.id) n.value) })).filter
        (fun n => n.ntype = NodeType.expense)
      = (E.map (fun e => NodeDatum.mk e.id e.label NodeType.expense e.value)).map
          (fun n => { n with value := max (nIn n.id) (max (nOut n.id) n.value) }) := by
    apply List.filter_eq_self.mpr
    intro n hn
    rcases List.mem_map.mp hn with ⟨y, hy, rfl⟩
    rcases List.mem_map.mp hy with ⟨e, he, rfl⟩
    simp
  have hI : ((I.map (fun i => NodeDatum.mk i.id i.label NodeType.income i.value)).map
      (fun n => { n with value := max (nIn n.id) (max (nOut n.id) n.value) })).filter
        (fun n => n.ntype = NodeType.expense) = [] := by
    apply List.filter_eq_nil_iff.mpr
    intro n hn
    rcases List.mem_map.mp hn with ⟨y, hy, rfl⟩
    rcases List.mem_map.mp hy with ⟨i, hi, rfl⟩
    simp
  rw [hI, hE, filter_map_ite_singleton_none _ _ _ (by simp),
    filter_map_ite_singleton_none _ _ _ (by simp)]
  rw [List.map_cons, List.map_nil, List.filter_cons_of_neg (by simp), List.filter_nil]
  rw [List.nil_append, List.nil_append, List.nil_append, List.append_nil, List.map_map]
  rfl

/-- `find?` skips a block of entry-derived nodes whose ids all differ from
the sought id. -/
theorem find?_entry_block_none (items : List Item) (t : NodeType) (nIn nOut : String → ℚ)
    (id : String) (hneq : ∀ i ∈ items, ¬i.id = id) :
    ((items.map (fun i => NodeDatum.mk i.id i.label t i.value)).map
      (fun n => { n with value := max (nIn n.id) (max (nOut n.id) n.value) })).find?
        (fun n => n.id = id) = none := by
  apply List.find?_eq_none.mpr
  intro x hx
  rcases List.mem_map.mp hx with ⟨y, hy, rfl⟩
  rcases List.mem_map.mp hy with ⟨i, hi, rfl⟩
  simpa using hneq i hi

/-- Looking the debt node up in the adjusted node list. -/
theorem findNode_debt (I E : List Item) (dT sT bT : ℚ) (nIn nOut : String → ℚ)
    (hIshape : ∀ i ∈ I, ∃ s, i.id = "inc-" ++ s)
    (hEshape : ∀ e ∈ E, ∃ s, e.id = "exp-" ++ s) :
    findNode (nodesOf (nodesRawOf I E dT sT bT) nIn nOut) "debt"
      = if 0 < dT then
          some (NodeDatum.mk "debt" "Debt" NodeType.debt
            (max (nIn "debt") (max (nOut "debt") dT)))
        else none := by
  have hIne : ∀ i ∈ I, ¬i.id = "debt" := fun i hi h => by
    obtain ⟨s, hs⟩ := hIshape i hi
    exact inc_ne_debt s (hs ▸ h)
  have hEne : ∀ e ∈ E, ¬e.id = "debt" := fun e he h => by
    obtain ⟨s, hs⟩ := hEshape e he
    exact exp_ne_debt s (hs ▸ h)
  unfold findNode nodesOf nodesRawOf
  rw [List.map_append, List.map_append, List.map_append, List.map_append]
  rw [List.append_assoc, List.append_assoc, List.append_assoc]
  rw [find?_append_of_none (find?_entry_block_none I NodeType.income nIn nOut "debt" hIne)]
  by_cases hd : 0 < dT
  · rw [if_pos hd]
    simp only [if_pos hd, List.map_cons, List.map_nil, List.cons_append]
    rw [List.find?_cons_of_pos _ (by simp)]
  · rw [if_neg hd]
    simp only [if_neg hd, List.map_nil, List.nil_append, List.map_cons, List.cons_append]
    rw [List.find?_cons_of_neg _ (by simp)]
    rw [find?_append_of_none (find?_entry_block_none E NodeType.expense nIn nOut "debt" hEne)]
    by_cases hs : 0 < sT
    · simp only [if_pos hs, List.map_cons, List.map_nil]
      rw [List.find?_cons_of_neg _ (by simp)]
      rfl
    · simp only [if_neg hs, List.map_nil]
      rfl

/-- Looking the pool node up in the adjusted node list. -/
theorem findNode_budget (I E : List Item) (dT sT bT : ℚ) (nIn nOut : String → ℚ)
    (hIshape : ∀ i ∈ I, ∃ s, i.id = "inc-" ++ s) :
    findNode (nodesOf (nodesRawOf I E dT sT bT) nIn nOut) "budget"
      = some (NodeDatum.mk "budget" "Total Budget" NodeType.pool
          (max (nIn "budget") (max (nOut "budget") bT))) := by
  have hIne : ∀ i ∈ I, ¬i.id = "budget" := fun i hi h => by
    obtain ⟨s, hs⟩ := hIshape i hi
    exact inc_ne_budget s (hs ▸ h)
  unfold findNode nodesOf nodesRawOf
  rw [List.map_append, List.map_append, List.map_append, List.map_append]
  rw [List.append_assoc, List.append_assoc, List.append_assoc]
  rw [find?_append_of_none (find?_entry_block_none I NodeType.income nIn nOut "budget" hIne)]
  by_cases hd : 0 < dT
  · simp only [if_pos hd, List.map_cons, List.map_nil, List.cons_append]
    rw [List.find?_cons_of_neg _ (by simp), List.nil_append,
      List.find?_cons_of_pos _ (by simp)]
  · simp only [if_neg hd, List.map_nil, List.nil_append, List.map_cons, List.cons_append]
    rw [List.find?_cons_of_pos _ (by simp)]

/-- Looking the savings node up in the adjusted node list. -/
theorem findNode_savings (I E : List Item) (dT sT bT : ℚ) (nIn nOut : String → ℚ)
    (hIshape : ∀ i ∈ I, ∃ s, i.id = "inc-" ++ s)
    (hEshape : ∀ e ∈ E, ∃ s, e.id = "exp-" ++ s) :
    findNode (nodesOf (nodesRawOf I E dT sT bT) nIn nOut) "savings"
      = if 0 < sT then
          some (NodeDatum.mk "savings" "Savings" NodeType.savings
            (max (nIn "savings") (max (nOut "savings") sT)))
        else none := by
  have hIne : ∀ i ∈ I, ¬i.id = "savings" := fun i hi h => by
    obtain ⟨s, hs⟩ := hIshape i hi
    exact inc_ne_savings s (hs ▸ h)
  have hEne : ∀ e ∈ E, ¬e.id = "savings" := fun e he h => by
    obtain ⟨s, hs⟩ := hEshape e he
    exact exp_ne_savings s (hs ▸ h)
  unfold findNode nodesOf nodesRawOf
  rw [List.map_append, List.map_append, List.map_append, List.map_append]
  rw [List.append_assoc, List.append_assoc, List.append_assoc]
  rw [find?_append_of_none (find?_entry_block_none I NodeType.income nIn nOut "savings" hIne)]
  by_cases hd : 0 < dT
  · simp only [if_pos hd, List.map_cons, List.map_nil, List.cons_append]
    rw [List.find?_cons_of_neg _ (by simp), List.nil_append,
      List.find?_cons_of_neg _ (by simp)]
    rw [List.nil_append, find?_append_of_none
      (find?_entry_block_none E NodeType.expense nIn nOut "savings" hEne)]
    by_cases hs : 0 < sT
    · simp only [if_pos hs, List.map_cons, List.map_nil]
      rw [List.find?_cons_of_pos _ (by simp)]
    · simp only [if_neg hs, List.map_nil]
      rfl
  · simp only [if_neg hd, List.map_nil, List.nil_append, List.map_cons, List.cons_append]
    rw [List.find?_cons_of_neg _ (by simp)]
    rw [find?_append_of_none
      (find?_entry_block_none E NodeType.expense nIn nOut "savings" hEne)]
    by_cases hs : 0 < sT
    · simp only [if_pos hs, List.map_cons, List.map_nil]
      rw [List.find?_cons_of_pos _ (by simp)]
    · simp only [if_neg hs, List.map_nil]
      rfl

/-! ## Values in the built graph -/

theorem incomesOf_shape (rows : List Row) : ∀ i ∈ incomesOf rows, ∃ s, i.id = "inc-" ++ s :=
  fun i hi =>
    let ⟨r, _, hh⟩ := (mem_incomesOf hi).2
    ⟨r.id, hh⟩

theorem expensesOf_shape (rows : List Row) : ∀ e ∈ expensesOf rows, ∃ s, e.id = "exp-" ++ s :=
  fun e he =>
    let ⟨r, _, hh⟩ := (mem_expensesOf he).2
    ⟨r.id, hh⟩

theorem builtNodes_eq (rI rE : List Row)
    (h : ¬(totalIncomeOf rI ≤ 0 ∧ totalExpenseOf rE ≤ 0)) :
    builtNodes rI rE
      = nodesOf
          (nodesRawOf (incomesOf rI) (expensesOf rE)
            (debtTotalOf (totalIncomeOf rI) (totalExpenseOf rE))
            (savingsTotalOf (totalIncomeOf rI) (totalExpenseOf rE))
            (totalIncomeOf rI + debtTotalOf (totalIncomeOf rI) (totalExpenseOf rE)))
          (accTotals (linksOf (incomesOf rI) (expensesOf rE)
            (debtTotalOf (totalIncomeOf rI) (totalExpenseOf rE))
            (savingsTotalOf (totalIncomeOf rI) (totalExpenseOf rE)))).2
          (accTotals (linksOf (incomesOf rI) (expensesOf rE)
            (debtTotalOf (totalIncomeOf rI) (totalExpenseOf rE))
            (savingsTotalOf (totalIncomeOf rI) (totalExpenseOf rE)))).1 := by
  rw [builtNodes, buildGraph_some rI rE h]

theorem builtLinks_eq (rI rE : List Row)
    (h : ¬(totalIncomeOf rI ≤ 0 ∧ totalExpenseOf rE ≤ 0)) :
    builtLinks rI rE
      = linksOf (incomesOf rI) (expensesOf rE)
          (debtTotalOf (totalIncomeOf rI) (totalExpenseOf rE))
          (savingsTotalOf (totalIncomeOf rI) (totalExpenseOf rE)) := by
  rw [builtLinks, buildGraph_some rI rE h]

theorem built_debt_value (rI rE : List Row)
    (h : ¬(totalIncomeOf rI ≤ 0 ∧ totalExpenseOf rE ≤ 0)) :
    nodeValueOr0 (builtNodes rI rE) "debt"
      = debtTotalOf (totalIncomeOf rI) (totalExpenseOf rE) := by
  rw [nodeValueOr0, builtNodes_eq rI rE h,
    findNode_debt _ _ _ _ _ _ _ (incomesOf_shape rI) (expensesOf_shape rE)]
  by_cases hd : 0 < debtTotalOf (totalIncomeOf rI) (totalExpenseOf rE)
  · rw [if_pos hd]
    simp only [accTotals_fst, accTotals_snd]
    rw [inSum_linksOf_debt incomesOf_pos expensesOf_pos (expensesOf_shape rE),
      outSum_linksOf_debt incomesOf_pos expensesOf_pos (incomesOf_shape rI), if_pos hd]
    rw [max_self, max_eq_right hd.le]
  · rw [if_neg hd]
    have h0 := debtTotalOf_nonneg (totalIncomeOf rI) (totalExpenseOf rE)
    have : debtTotalOf (totalIncomeOf rI) (totalExpenseOf rE) = 0 := le_antisymm (not_lt.mp hd) h0
    rw [this]

theorem built_savings_value (rI rE : List Row)
    (h : ¬(totalIncomeOf rI ≤ 0 ∧ totalExpenseOf rE ≤ 0)) :
    nodeValueOr0 (builtNodes rI rE) "savings"
      = savingsTotalOf (totalIncomeOf rI) (totalExpenseOf rE) := by
  rw [nodeValueOr0, builtNodes_eq rI rE h,
    findNode_savings _ _ _ _ _ _ _ (incomesOf_shape rI) (expensesOf_shape rE)]
  by_cases hs : 0 < savingsTotalOf (totalIncomeOf rI) (totalExpenseOf rE)
  · rw [if_pos hs]
    simp only [accTotals_fst, accTotals_snd]
    rw [inSum_linksOf_savings incomesOf_pos expensesOf_pos (expensesOf_shape rE),
      outSum_linksOf_savings incomesOf_pos expensesOf_pos (incomesOf_shape rI), if_pos hs]
    rw [max_eq_right hs.le, max_self]
  · rw [if_neg hs]
    have h0 := savingsTotalOf_nonneg (totalIncomeOf rI) (totalExpenseOf rE)
    have : savingsTotalOf (totalIncomeOf rI) (totalExpenseOf rE) = 0 :=
      le_antisymm (not_lt.mp hs) h0
    rw [this]

theorem built_pool_value (rI rE : List Row)
    (h : ¬(totalIncomeOf rI ≤ 0 ∧ totalExpenseOf rE ≤ 0)) :
    nodeValueOr0 (builtNodes rI rE) "budget"
      = totalIncomeOf rI + debtTotalOf (totalIncomeOf rI) (totalExpenseOf rE) := by
  rw [nodeValueOr0, builtNodes_eq rI rE h,
    findNode_budget _ _ _ _ _ _ _ (incomesOf_shape rI)]
  simp only [accTotals_fst, accTotals_snd]
  rw [inSum_linksOf_budget incomesOf_pos expensesOf_pos (expensesOf_shape rE),
    outSum_linksOf_budget incomesOf_pos expensesOf_pos (incomesOf_shape rI)]
  rw [ite_pos_self (debtTotalOf_nonneg _ _), ite_pos_self (savingsTotalOf_nonneg _ _)]
  have hb : (totalExpenseOf rE : ℚ)
        + savingsTotalOf (totalIncomeOf rI) (totalExpenseOf rE)
      = totalIncomeOf rI + debtTotalOf (totalIncomeOf rI) (totalExpenseOf rE) :=
    (pool_balance (totalIncomeOf rI) (totalExpenseOf rE)).symm
  rw [show ((expensesOf rE).map (fun e => e.value)).sum = totalExpenseOf rE from rfl,
    show ((incomesOf rI).map (fun i => i.value)).sum = totalIncomeOf rI from rfl, hb]
  rw [max_self, max_self]

theorem built_income_sum (rI rE : List Row)
    (h : ¬(totalIncomeOf rI ≤ 0 ∧ totalExpenseOf rE ≤ 0))
    (hnd : (rI.map Row.id).Nodup) :
    kindValueSum (builtNodes rI rE) NodeType.income = totalIncomeOf rI := by
  rw [kindValueSum, builtNodes_eq rI rE h, nodes_filter_income, List.map_map]
  have hpoint : ∀ i ∈ incomesOf rI,
      ((fun n => n.value) ∘ fun i =>
        NodeDatum.mk i.id i.label NodeType.income
          (max ((accTotals (linksOf (incomesOf rI) (expensesOf rE)
            (debtTotalOf (totalIncomeOf rI) (totalExpenseOf rE))
            (savingsTotalOf (totalIncomeOf rI) (totalExpenseOf rE)))).2 i.id)
            (max ((accTotals (linksOf (incomesOf rI) (expensesOf rE)
              (debtTotalOf (totalIncomeOf rI) (totalExpenseOf rE))
              (savingsTotalOf (totalIncomeOf rI) (totalExpenseOf rE)))).1 i.id) i.value))) i
        = i.value := by
    intro i hi
    simp only [Function.comp_apply, accTotals_fst, accTotals_snd]
    rw [inSum_linksOf_inc hi incomesOf_pos expensesOf_pos (incomesOf_shape rI)
        (expensesOf_shape rE),
      outSum_linksOf_inc hi (incomesOf_id_nodup hnd) incomesOf_pos expensesOf_pos
        (incomesOf_shape rI)]
    rw [max_self, max_eq_right (incomesOf_pos i hi).le]
  rw [List.map_congr_left hpoint]
  rfl

theorem built_expense_sum (rI rE : List Row)
    (h : ¬(totalIncomeOf rI ≤ 0 ∧ totalExpenseOf rE ≤ 0))
    (hnd : (rE.map Row.id).Nodup) :
    kindValueSum (builtNodes rI rE) NodeType.expense = totalExpenseOf rE := by
  rw [kindValueSum, builtNodes_eq rI rE h, nodes_filter_expense, List.map_map]
  have hpoint : ∀ e ∈ expensesOf rE,
      ((fun n => n.value) ∘ fun e =>
        NodeDatum.mk e.id e.label NodeType.expense
          (max ((accTotals (linksOf (incomesOf rI) (expensesOf rE)
            (debtTotalOf (totalIncomeOf rI) (totalExpenseOf rE))
            (savingsTotalOf (totalIncomeOf rI) (totalExpenseOf rE)))).2 e.id)
            (max ((accTotals (linksOf (incomesOf rI) (expensesOf rE)
              (debtTotalOf (totalIncomeOf rI) (totalExpenseOf rE))
              (savingsTotalOf (totalIncomeOf rI) (totalExpenseOf rE)))).1 e.id) e.value))) e
        = e.value := by
    intro e he
    simp only [Function.comp_apply, accTotals_fst, accTotals_snd]
    rw [inSum_linksOf_exp he (expensesOf_id_nodup hnd) incomesOf_pos expensesOf_pos
        (expensesOf_shape rE),
      outSum_linksOf_exp he incomesOf_pos expensesOf_pos (incomesOf_shape rI)
        (expensesOf_shape rE)]
    rw [max_eq_right (expensesOf_pos e he).le, max_self]
  rw [List.map_congr_left hpoint]
  rfl

theorem buildGraph_ne_none_iff (rI rE : List Row) :
    buildGraph rI rE ≠ none ↔ ¬(totalIncomeOf rI ≤ 0 ∧ totalExpenseOf rE ≤ 0) := by
  constructor
  · intro h hguard
    apply h
    unfold buildGraph
    rw [if_pos hguard]
  · intro h
    rw [buildGraph_some rI rE h]
    simp

/-- C1 (amended: the entry ids within each input list must be pairwise
distinct, as the row editor guarantees): whenever a graph is built, the
sum of the income node values plus the debt node value (0 if absent)
equals the sum of the expense node values plus the savings node value
(0 if absent), both equal the pool node's final value, at most one of the
debt and savings values is non-zero, and both are zero exactly when the
total income equals the total expense. -/
theorem balance_invariant (rI rE : List Row)
    (hndI : (rI.map Row.id).Nodup) (hndE : (rE.map Row.id).Nodup)
    (hbuilt : buildGraph rI rE ≠ none) :
    kindValueSum (builtNodes rI rE) NodeType.income + nodeValueOr0 (builtNodes rI rE) "debt"
        = nodeValueOr0 (builtNodes rI rE) "budget"
      ∧ kindValueSum (builtNodes rI rE) NodeType.expense
          + nodeValueOr0 (builtNodes rI rE) "savings"
        = nodeValueOr0 (builtNodes rI rE) "budget"
      ∧ (nodeValueOr0 (builtNodes rI rE) "debt" = 0
          ∨ nodeValueOr0 (builtNodes rI rE) "savings" = 0)
      ∧ ((nodeValueOr0 (builtNodes rI rE) "debt" = 0
          ∧ nodeValueOr0 (builtNodes rI rE) "savings" = 0)
          ↔ totalIncomeOf rI = totalExpenseOf rE) := by
  have h := (buildGraph_ne_none_iff rI rE).mp hbuilt
  rw [built_income_sum rI rE h hndI, built_expense_sum rI rE h hndE,
    built_debt_value rI rE h, built_savings_value rI rE h, built_pool_value rI rE h]
  exact ⟨rfl, (pool_balance _ _).symm, debt_savings_mutex _ _, debt_savings_zero_iff _ _⟩

set_option maxRecDepth 8000 in
/-- C1 counterexample: with two income rows sharing the id `"a"`, both
income nodes absorb the combined outflow `30` through the max-of-three
rule, so the income-side sum is `60` while the pool holds `30`; the claim
fails as stated for arbitrary entry lists. -/
theorem balance_invariant_cex :
    buildGraph [Row.mk "a" "Salary" 10, Row.mk "a" "Bonus" 20] [Row.mk "b" "Rent" 30] ≠ none
      ∧ kindValueSum (builtNodes [Row.mk "a" "Salary" 10, Row.mk "a" "Bonus" 20]
            [Row.mk "b" "Rent" 30]) NodeType.income
          + nodeValueOr0 (builtNodes [Row.mk "a" "Salary" 10, Row.mk "a" "Bonus" 20]
            [Row.mk "b" "Rent" 30]) "debt" = 60
      ∧ nodeValueOr0 (builtNodes [Row.mk "a" "Salary" 10, Row.mk "a" "Bonus" 20]
            [Row.mk "b" "Rent" 30]) "budget" = 30
      ∧ ¬(kindValueSum (builtNodes [Row.mk "a" "Salary" 10, Row.mk "a" "Bonus" 20]
            [Row.mk "b" "Rent" 30]) NodeType.income
          + nodeValueOr0 (builtNodes [Row.mk "a" "Salary" 10, Row.mk "a" "Bonus" 20]
            [Row.mk "b" "Rent" 30]) "debt"
          = nodeValueOr0 (builtNodes [Row.mk "a" "Salary" 10, Row.mk "a" "Bonus" 20]
            [Row.mk "b" "Rent" 30]) "budget") :=
  ⟨of_decide_eq_true (by with_unfolding_all rfl),
   of_decide_eq_true (by with_unfolding_all rfl),
   of_decide_eq_true (by with_unfolding_all rfl),
   of_decide_eq_true (by with_unfolding_all rfl)⟩

set_option maxRecDepth 8000 in
/-- C1 witness: the amended balance invariant at the spec's own example
(`Salary 2000` against `Rent 1200`, `Food 400`). -/
theorem balance_invariant_witness :
    kindValueSum (builtNodes [Row.mk "a" "Salary" 2000]
          [Row.mk "b" "Rent" 1200, Row.mk "c" "Food" 400]) NodeType.income
        + nodeValueOr0 (builtNodes [Row.mk "a" "Salary" 2000]
          [Row.mk "b" "Rent" 1200, Row.mk "c" "Food" 400]) "debt"
        = nodeValueOr0 (builtNodes [Row.mk "a" "Salary" 2000]
          [Row.mk "b" "Rent" 1200, Row.mk "c" "Food" 400]) "budget"
      ∧ kindValueSum (builtNodes [Row.mk "a" "Salary" 2000]
          [Row.mk "b" "Rent" 1200, Row.mk "c" "Food" 400]) NodeType.expense
          + nodeValueOr0 (builtNodes [Row.mk "a" "Salary" 2000]
            [Row.mk "b" "Rent" 1200, Row.mk "c" "Food" 400]) "savings"
        = nodeValueOr0 (builtNodes [Row.mk "a" "Salary" 2000]
          [Row.mk "b" "Rent" 1200, Row.mk "c" "Food" 400]) "budget"
      ∧ (nodeValueOr0 (builtNodes [Row.mk "a" "Salary" 2000]
          [Row.mk "b" "Rent" 1200, Row.mk "c" "Food" 400]) "debt" = 0
          ∨ nodeValueOr0 (builtNodes [Row.mk "a" "Salary" 2000]
            [Row.mk "b" "Rent" 1200, Row.mk "c" "Food" 400]) "savings" = 0)
      ∧ ((nodeValueOr0 (builtNodes [Row.mk "a" "Salary" 2000]
          [Row.mk "b" "Rent" 1200, Row.mk "c" "Food" 400]) "debt" = 0
          ∧ nodeValueOr0 (builtNodes [Row.mk "a" "Salary" 2000]
            [Row.mk "b" "Rent" 1200, Row.mk "c" "Food" 400]) "savings" = 0)
          ↔ totalIncomeOf [Row.mk "a" "Salary" 2000]
            = totalExpenseOf [Row.mk "b" "Rent" 1200, Row.mk "c" "Food" 400]) :=
  balance_invariant [Row.mk "a" "Salary" 2000] [Row.mk "b" "Rent" 1200, Row.mk "c" "Food" 400]
    (by decide) (by decide) (of_decide_eq_true (by with_unfolding_all rfl))

/-! ## Node kinds by id in the built graph -/

theorem find?_append_first {α : Type} {p : α → Bool} {l1 l2 : List α}
    (h : ∃ y ∈ l1, p y) :
    ∃ x, (l1 ++ l2).find? p = some x ∧ x ∈ l1 ∧ p x := by
  induction l1 with
  | nil => simp at h
  | cons a as ih =>
    by_cases hp : p a
    · exact ⟨a, by rw [List.cons_append, List.find?_cons_of_pos _ hp],
        List.mem_cons_self a as, hp⟩
    · obtain ⟨y, hy, hpy⟩ := h
      rcases List.mem_cons.mp hy with rfl | hyas
      · exact absurd hpy hp
      · obtain ⟨x, hfind, hxm, hpx⟩ := ih ⟨y, hyas, hpy⟩
        exact ⟨x, by rw [List.cons_append, List.find?_cons_of_neg _ hp]; exact hfind,
          List.mem_cons_of_mem a hxm, hpx⟩

theorem mem_adjusted_block {items : List Item} (t : NodeType) (nIn nOut : String → ℚ)
    {i : Item} (hi : i ∈ items) :
    ∃ y ∈ (items.map (fun j => NodeDatum.mk j.id j.label t j.value)).map
        (fun n => { n with value := max (nIn n.id) (max (nOut n.id) n.value) }),
      (fun n => decide (n.id = i.id)) y = true := by
  refine ⟨_, List.mem_map_of_mem _ (List.mem_map_of_mem _ hi), ?_⟩
  simp

theorem nodeKind_budget (rI rE : List Row)
    (h : ¬(totalIncomeOf rI ≤ 0 ∧ totalExpenseOf rE ≤ 0)) :
    nodeKind (builtNodes rI rE) "budget" = some NodeType.pool := by
  rw [nodeKind, builtNodes_eq rI rE h,
    findNode_budget _ _ _ _ _ _ _ (incomesOf_shape rI)]

theorem nodeKind_debt (rI rE : List Row)
    (h : ¬(totalIncomeOf rI ≤ 0 ∧ totalExpenseOf rE ≤ 0))
    (hd : 0 < debtTotalOf (totalIncomeOf rI) (totalExpenseOf rE)) :
    nodeKind (builtNodes rI rE) "debt" = some NodeType.debt := by
  rw [nodeKind, builtNodes_eq rI rE h,
    findNode_debt _ _ _ _ _ _ _ (incomesOf_shape rI) (expensesOf_shape rE), if_pos hd]

theorem nodeKind_savings (rI rE : List Row)
    (h : ¬(totalIncomeOf rI ≤ 0 ∧ totalExpenseOf rE ≤ 0))
    (hs : 0 < savingsTotalOf (totalIncomeOf rI) (totalExpenseOf rE)) :
    nodeKind (builtNodes rI rE) "savings" = some NodeType.savings := by
  rw [nodeKind, builtNodes_eq rI rE h,
    findNode_savings _ _ _ _ _ _ _ (incomesOf_shape rI) (expensesOf_shape rE), if_pos hs]

theorem nodeKind_inc (rI rE : List Row)
    (h : ¬(totalIncomeOf rI ≤ 0 ∧ totalExpenseOf rE ≤ 0))
    {i : Item} (hi : i ∈ incomesOf rI) :
    nodeKind (builtNodes rI rE) i.id = some NodeType.income := by
  rw [nodeKind, builtNodes_eq rI rE h]
  unfold findNode nodesOf nodesRawOf
  rw [List.map_append, List.map_append, List.map_append, List.map_append,
    List.append_assoc, List.append_assoc, List.append_assoc]
  obtain ⟨x, hfind, hxm, hpx⟩ :=
    find?_append_first (mem_adjusted_block NodeType.income _ _ hi)
  rw [hfind]
  rcases List.mem_map.mp hxm with ⟨y, hy, rfl⟩
  rcases List.mem_map.mp hy with ⟨i2, _, rfl⟩
  rfl

theorem nodeKind_exp (rI rE : List Row)
    (h : ¬(totalIncomeOf rI ≤ 0 ∧ totalExpenseOf rE ≤ 0))
    {e : Item} (he : e ∈ expensesOf rE) :
    nodeKind (builtNodes rI rE) e.id = some NodeType.expense := by
  obtain ⟨s, hs⟩ := expensesOf_shape rE e he
  have hIne : ∀ i ∈ incomesOf rI, ¬i.id = e.id := fun i hival hh => by
    obtain ⟨t, ht⟩ := incomesOf_shape rI i hival
    exact inc_ne_exp t s (by rw [← ht, ← hs]; exact hh)
  rw [nodeKind, builtNodes_eq rI rE h]
  unfold findNode nodesOf nodesRawOf
  rw [List.map_append, List.map_append, List.map_append, List.map_append,
    List.append_assoc, List.append_assoc, List.append_assoc]
  rw [find?_append_of_none (find?_entry_block_none (incomesOf rI) NodeType.income _ _ e.id hIne)]
  by_cases hd : 0 < debtTotalOf (totalIncomeOf rI) (totalExpenseOf rE)
  · simp only [if_pos hd, List.map_cons, List.map_nil, List.cons_append]
    rw [List.find?_cons_of_neg _ (by simpa using fun hh => exp_ne_debt s (hs ▸ hh.symm)),
      List.nil_append, List.find?_cons_of_neg _
        (by simpa using fun hh => exp_ne_budget s (hs ▸ hh.symm)), List.nil_append]
    obtain ⟨x, hfind, hxm, hpx⟩ :=
      find?_append_first (mem_adjusted_block NodeType.expense _ _ he)
    rw [hfind]
    rcases List.mem_map.mp hxm with ⟨y, hy, rfl⟩
    rcases List.mem_map.mp hy with ⟨e2, _, rfl⟩
    rfl
  · simp only [if_neg hd, List.map_nil, List.nil_append, List.map_cons, List.cons_append]
    rw [List.find?_cons_of_neg _
        (by simpa using fun hh => exp_ne_budget s (hs ▸ hh.symm))]
    obtain ⟨x, hfind, hxm, hpx⟩ :=
      find?_append_first (mem_adjusted_block NodeType.expense _ _ he)
    rw [hfind]
    rcases List.mem_map.mp hxm with ⟨y, hy, rfl⟩
    rcases List.mem_map.mp hy with ⟨e2, _, rfl⟩
    rfl

/-- C2: in every built graph all link values are strictly positive; the
link list is exactly one income→pool link per retained income entry, a
debt→pool link iff the debt node exists, one pool→expense link per
retained expense entry and a pool→savings link iff the savings node
exists; and every link's endpoint kinds lie in the star set
{income→pool, debt→pool, pool→expense, pool→savings}, so no link joins
two source-column or two sink-column nodes. -/
theorem link_topology (rI rE : List Row) (hbuilt : buildGraph rI rE ≠ none) :
    (∀ l ∈ builtLinks rI rE, 0 < l.value)
      ∧ builtLinks rI rE
          = (incomesOf rI).map (fun i => LinkDatum.mk i.id "budget" i.value)
            ++ (if 0 < debtTotalOf (totalIncomeOf rI) (totalExpenseOf rE) then
                  [LinkDatum.mk "debt" "budget"
                    (debtTotalOf (totalIncomeOf rI) (totalExpenseOf rE))] else [])
            ++ (expensesOf rE).map (fun e => LinkDatum.mk "budget" e.id e.value)
            ++ (if 0 < savingsTotalOf (totalIncomeOf rI) (totalExpenseOf rE) then
                  [LinkDatum.mk "budget" "savings"
                    (savingsTotalOf (totalIncomeOf rI) (totalExpenseOf rE))] else [])
      ∧ (∀ l ∈ builtLinks rI rE,
          ((nodeKind (builtNodes rI rE) l.source = some NodeType.income
              ∨ nodeKind (builtNodes rI rE) l.source = some NodeType.debt)
            ∧ nodeKind (builtNodes rI rE) l.target = some NodeType.pool)
          ∨ (nodeKind (builtNodes rI rE) l.source = some NodeType.pool
            ∧ (nodeKind (builtNodes rI rE) l.target = some NodeType.expense
              ∨ nodeKind (builtNodes rI rE) l.target = some NodeType.savings))) := by
  have h := (buildGraph_ne_none_iff rI rE).mp hbuilt
  have hL := builtLinks_eq rI rE h
  refine ⟨?_, ?_, ?_⟩
  · intro l hl
    rw [hL] at hl
    rcases (mem_linksOf incomesOf_pos expensesOf_pos).mp hl with
      ⟨i, hi, rfl⟩ | ⟨hd, rfl⟩ | ⟨e, he, rfl⟩ | ⟨hs, rfl⟩
    · exact incomesOf_pos i hi
    · exact hd
    · exact expensesOf_pos e he
    · exact hs
  · rw [hL, linksOf_eq _ _ _ _ incomesOf_pos expensesOf_pos]
  · intro l hl
    rw [hL] at hl
    rcases (mem_linksOf incomesOf_pos expensesOf_pos).mp hl with
      ⟨i, hi, rfl⟩ | ⟨hd, rfl⟩ | ⟨e, he, rfl⟩ | ⟨hs, rfl⟩
    · exact Or.inl ⟨Or.inl (nodeKind_inc rI rE h hi), nodeKind_budget rI rE h⟩
    · exact Or.inl ⟨Or.inr (nodeKind_debt rI rE h hd), nodeKind_budget rI rE h⟩
    · exact Or.inr ⟨nodeKind_budget rI rE h, Or.inl (nodeKind_exp rI rE h he)⟩
    · exact Or.inr ⟨nodeKind_budget rI rE h, Or.inr (nodeKind_savings rI rE h hs)⟩

set_option maxRecDepth 8000 in
/-- C2 witness: the topology invariant at the spec's deficit example
(`Salary 1000` against `Rent 1500`, which creates the debt node). -/
theorem link_topology_witness :
    (∀ l ∈ builtLinks [Row.mk "a" "Salary" 1000] [Row.mk "b" "Rent" 1500], 0 < l.value)
      ∧ builtLinks [Row.mk "a" "Salary" 1000] [Row.mk "b" "Rent" 1500]
          = (incomesOf [Row.mk "a" "Salary" 1000]).map
              (fun i => LinkDatum.mk i.id "budget" i.value)
            ++ (if 0 < debtTotalOf (totalIncomeOf [Row.mk "a" "Salary" 1000])
                  (totalExpenseOf [Row.mk "b" "Rent" 1500]) then
                  [LinkDatum.mk "debt" "budget"
                    (debtTotalOf (totalIncomeOf [Row.mk "a" "Salary" 1000])
                      (totalExpenseOf [Row.mk "b" "Rent" 1500]))] else [])
            ++ (expensesOf [Row.mk "b" "Rent" 1500]).map
              (fun e => LinkDatum.mk "budget" e.id e.value)
            ++ (if 0 < savingsTotalOf (totalIncomeOf [Row.mk "a" "Salary" 1000])
                  (totalExpenseOf [Row.mk "b" "Rent" 1500]) then
                  [LinkDatum.mk "budget" "savings"
                    (savingsTotalOf (totalIncomeOf [Row.mk "a" "Salary" 1000])
                      (totalExpenseOf [Row.mk "b" "Rent" 1500]))] else [])
      ∧ (∀ l ∈ builtLinks [Row.mk "a" "Salary" 1000] [Row.mk "b" "Rent" 1500],
          ((nodeKind (builtNodes [Row.mk "a" "Salary" 1000] [Row.mk "b" "Rent" 1500]) l.source
              = some NodeType.income
              ∨ nodeKind (builtNodes [Row.mk "a" "Salary" 1000] [Row.mk "b" "Rent" 1500]) l.source
                = some NodeType.debt)
            ∧ nodeKind (builtNodes [Row.mk "a" "Salary" 1000] [Row.mk "b" "Rent" 1500]) l.target
              = some NodeType.pool)
          ∨ (nodeKind (builtNodes [Row.mk "a" "Salary" 1000] [Row.mk "b" "Rent" 1500]) l.source
              = some NodeType.pool
            ∧ (nodeKind (builtNodes [Row.mk "a" "Salary" 1000] [Row.mk "b" "Rent" 1500]) l.target
                = some NodeType.expense
              ∨ nodeKind (builtNodes [Row.mk "a" "Salary" 1000] [Row.mk "b" "Rent" 1500]) l.target
                = some NodeType.savings))) :=
  link_topology [Row.mk "a" "Salary" 1000] [Row.mk "b" "Rent" 1500]
    (of_decide_eq_true (by with_unfolding_all rfl))

/-! ## The global vertical scale -/

theorem d3min_none_iff (xs : List ℚ) : d3min xs = none ↔ xs = [] := by
  cases xs <;> simp [d3min]

theorem d3min_mem : ∀ {xs : List ℚ} {m : ℚ}, d3min xs = some m → m ∈ xs := by
  intro xs
  induction xs with
  | nil => intro m h; cases h
  | cons x xs ih =>
    intro m h
    rw [d3min] at h
    rcases hx : d3min xs with _ | m2
    · rw [hx] at h
      rw [← Option.some.inj h]
      exact List.mem_cons_self x xs
    · rw [hx] at h
      have hm : m = min x m2 := (Option.some.inj h).symm
      rcases min_choice x m2 with hc | hc
      · rw [hm, hc]
        exact List.mem_cons_self x xs
      · refine List.mem_cons_of_mem x (ih ?_)
        rw [hx, hm, hc]

theorem d3min_le : ∀ {xs : List ℚ} {m : ℚ}, d3min xs = some m → ∀ y ∈ xs, m ≤ y := by
  intro xs
  induction xs with
  | nil => intro m h; cases h
  | cons x xs ih =>
    intro m h y hy
    rw [d3min] at h
    rcases hx : d3min xs with _ | m2
    · rw [hx] at h
      have hnil : xs = [] := (d3min_none_iff xs).mp hx
      subst hnil
      rcases List.mem_cons.mp hy with heq | hmem
      · rw [heq, ← Option.some.inj h]
      · cases hmem
    · rw [hx] at h
      have hm : m = min x m2 := (Option.some.inj h).symm
      rcases List.mem_cons.mp hy with heq | hmem
      · rw [heq, hm]
        exact min_le_left x m2
      · rw [hm]
        exact le_trans (min_le_right x m2) (ih hx y hmem)

theorem mem_kyCandidatesOf {innerH pad : ℚ} {columns : List (String × List NodeDatum)}
    {c : ℚ} :
    c ∈ kyCandidatesOf innerH pad columns
      ↔ ∃ col ∈ columns, 0 < columnSum col ∧ columnPad pad col < innerH
          ∧ c = (innerH - columnPad pad col) / columnSum col := by
  unfold kyCandidatesOf
  rw [List.mem_filterMap]
  constructor
  · rintro ⟨col, hcol, hf⟩
    by_cases hc : 0 < columnSum col ∧ columnPad pad col < innerH
    · rw [if_pos hc] at hf
      exact ⟨col, hcol, hc.1, hc.2, (Option.some.inj hf).symm⟩
    · rw [if_neg hc] at hf
      cases hf
  · rintro ⟨col, hcol, h1, h2, rfl⟩
    exact ⟨col, hcol, by rw [if_pos ⟨h1, h2⟩]⟩

theorem kyCandidatesOf_pos {innerH pad : ℚ} {columns : List (String × List NodeDatum)}
    {c : ℚ} (hc : c ∈ kyCandidatesOf innerH pad columns) : 0 < c := by
  obtain ⟨col, -, h1, h2, rfl⟩ := mem_kyCandidatesOf.mp hc
  exact div_pos (by linarith) h1

/-- The trailing guard makes the scale strictly positive in every case. -/
theorem guard_pos (a : ℚ) : 0 < if a ≤ 0 then 1 else a := by
  split
  · exact one_pos
  · next h => exact lt_of_not_le h

theorem kyOf_pos (innerH pad : ℚ) (nodes : List NodeDatum)
    (columns : List (String × List NodeDatum)) : 0 < kyOf innerH pad nodes columns :=
  guard_pos _

/-- C5: the global scale is the least of the per-column candidates
`(innerHeight − padding×(count−1)) / columnSum` over the columns yielding
a finite positive candidate; with no such column it falls back to
`innerHeight / (max node value, or 1)`, guarded to `1` when non-positive
(the rational model's stand-in for the non-finite guard). -/
theorem global_scale (innerH pad : ℚ) (nodes : List NodeDatum)
    (columns : List (String × List NodeDatum)) :
    (∀ col ∈ columns, 0 < columnSum col → columnPad pad col < innerH →
        ((innerH - columnPad pad col) / columnSum col ∈ kyCandidatesOf innerH pad columns
          ∧ kyOf innerH pad nodes columns ≤ (innerH - columnPad pad col) / columnSum col))
      ∧ (kyCandidatesOf innerH pad columns ≠ [] →
          kyOf innerH pad nodes columns ∈ kyCandidatesOf innerH pad columns)
      ∧ (kyCandidatesOf innerH pad columns = [] →
          kyOf innerH pad nodes columns
            = if innerH / fallbackDenom nodes ≤ 0 then 1
              else innerH / fallbackDenom nodes) := by
  have hky : ∀ m, d3min (kyCandidatesOf innerH pad columns) = some m →
      kyOf innerH pad nodes columns = m := by
    intro m hm
    have hpos : 0 < m := kyCandidatesOf_pos (d3min_mem hm)
    unfold kyOf
    rw [hm]
    exact if_neg (not_le.mpr hpos)
  refine ⟨?_, ?_, ?_⟩
  · intro col hcol h1 h2
    have hmem : (innerH - columnPad pad col) / columnSum col
        ∈ kyCandidatesOf innerH pad columns :=
      mem_kyCandidatesOf.mpr ⟨col, hcol, h1, h2, rfl⟩
    have hne : kyCandidatesOf innerH pad columns ≠ [] := by
      intro he
      rw [he] at hmem
      cases hmem
    rcases hm : d3min (kyCandidatesOf innerH pad columns) with _ | m
    · exact absurd ((d3min_none_iff _).mp hm) hne
    · exact ⟨hmem, (hky m hm) ▸ d3min_le hm _ hmem⟩
  · intro hne
    rcases hm : d3min (kyCandidatesOf innerH pad columns) with _ | m
    · exact absurd ((d3min_none_iff _).mp hm) hne
    · exact (hky m hm) ▸ d3min_mem hm
  · intro he
    unfold kyOf
    rw [(d3min_none_iff _).mpr he]

set_option maxRecDepth 8000 in
/-- C5 witness: the out column (Rent 1200, Food 400, Savings 400) of the
spec's example is the most constrained at canvas height 420
(`innerHeight = 372`), so it dictates the scale. -/
theorem global_scale_witness :
    (372 - columnPad 10 ("out",
        [NodeDatum.mk "exp-b" "Rent" NodeType.expense 1200,
         NodeDatum.mk "exp-c" "Food" NodeType.expense 400,
         NodeDatum.mk "savings" "Savings" NodeType.savings 400]))
      / columnSum ("out",
        [NodeDatum.mk "exp-b" "Rent" NodeType.expense 1200,
         NodeDatum.mk "exp-c" "Food" NodeType.expense 400,
         NodeDatum.mk "savings" "Savings" NodeType.savings 400])
      ∈ kyCandidatesOf 372 10
        [("source", [NodeDatum.mk "inc-a" "Salary" NodeType.income 2000]),
         ("out",
          [NodeDatum.mk "exp-b" "Rent" NodeType.expense 1200,
           NodeDatum.mk "exp-c" "Food" NodeType.expense 400,
           NodeDatum.mk "savings" "Savings" NodeType.savings 400])]
    ∧ kyOf 372 10
        [NodeDatum.mk "inc-a" "Salary" NodeType.income 2000,
         NodeDatum.mk "exp-b" "Rent" NodeType.expense 1200,
         NodeDatum.mk "exp-c" "Food" NodeType.expense 400,
         NodeDatum.mk "savings" "Savings" NodeType.savings 400]
        [("source", [NodeDatum.mk "inc-a" "Salary" NodeType.income 2000]),
         ("out",
          [NodeDatum.mk "exp-b" "Rent" NodeType.expense 1200,
           NodeDatum.mk "exp-c" "Food" NodeType.expense 400,
           NodeDatum.mk "savings" "Savings" NodeType.savings 400])]
      ≤ (372 - columnPad 10 ("out",
          [NodeDatum.mk "exp-b" "Rent" NodeType.expense 1200,
           NodeDatum.mk "exp-c" "Food" NodeType.expense 400,
           NodeDatum.mk "savings" "Savings" NodeType.savings 400]))
        / columnSum ("out",
          [NodeDatum.mk "exp-b" "Rent" NodeType.expense 1200,
           NodeDatum.mk "exp-c" "Food" NodeType.expense 400,
           NodeDatum.mk "savings" "Savings" NodeType.savings 400]) :=
  (global_scale 372 10
      [NodeDatum.mk "inc-a" "Salary" NodeType.income 2000,
       NodeDatum.mk "exp-b" "Rent" NodeType.expense 1200,
       NodeDatum.mk "exp-c" "Food" NodeType.expense 400,
       NodeDatum.mk "savings" "Savings" NodeType.savings 400]
      [("source", [NodeDatum.mk "inc-a" "Salary" NodeType.income 2000]),
       ("out",
        [NodeDatum.mk "exp-b" "Rent" NodeType.expense 1200,
         NodeDatum.mk "exp-c" "Food" NodeType.expense 400,
         NodeDatum.mk "savings" "Savings" NodeType.savings 400])]).1
    _ (by simp) (of_decide_eq_true (by with_unfolding_all rfl))
    (of_decide_eq_true (by with_unfolding_all rfl))

/-! ## Node heights -/

theorem stackColumn_height (pad minH ky x : ℚ) (colKey : String) :
    ∀ (ns : List NodeDatum) (y0 : ℚ) {nl : NodeLayout},
      nl ∈ stackColumn pad minH ky x colKey ns y0 → nl.height = max minH (nl.value * ky) := by
  intro ns
  induction ns with
  | nil => intro y0 nl h; cases h
  | cons n ns ih =>
    intro y0 nl h
    rw [stackColumn] at h
    rcases List.mem_cons.mp h with heq | hmem
    · rw [heq]
    · exact ih _ hmem

theorem renderOf_fields {rI rE : List Row} {w h : ℚ} {sc : Scene}
    (hr : renderOf rI rE w h = some sc) :
    sc.ky = kyOf (innerHeightOf h) nodePadding sc.nodes sc.columns
      ∧ sc.layout = layoutColumns (innerWidthOf w) nodePadding minNodeHeight sc.ky sc.columns := by
  unfold renderOf at hr
  rcases hbg : buildGraph rI rE with _ | p
  · rw [hbg] at hr
    cases hr
  · obtain ⟨ns, ls⟩ := p
    rw [hbg] at hr
    simp only at hr
    by_cases hc : columnsOf ns = []
    · rw [if_pos hc] at hr
      cases hr
    · rw [if_neg hc] at hr
      have hsc := (Option.some.inj hr).symm
      subst hsc
      exact ⟨rfl, rfl⟩

/-- C6: every laid-out node's height is `max(minNodeHeight, value × k)`,
hence at least the configured minimum, and within a column height is
monotone in the node value for the fixed scale. -/
theorem height_invariant (rI rE : List Row) (w h : ℚ) :
    ∀ col ∈ sceneLayout rI rE w h, ∀ nl ∈ col.2,
      nl.height = max minNodeHeight (nl.value * sceneKy rI rE w h)
        ∧ minNodeHeight ≤ nl.height
        ∧ ∀ nl2 ∈ col.2, nl.value ≤ nl2.value → nl.height ≤ nl2.height := by
  intro col hcol nl hnl
  rcases hrender : renderOf rI rE w h with _ | sc
  · simp only [sceneLayout, hrender] at hcol
    cases hcol
  · simp only [sceneLayout, hrender] at hcol
    simp only [sceneKy, hrender]
    obtain ⟨hky, hlay⟩ := renderOf_fields hrender
    rw [hlay] at hcol
    unfold layoutColumns at hcol
    obtain ⟨p, hp, hcoleq⟩ := List.mem_map.mp hcol
    have hcol2 : col.2 = stackColumn nodePadding minNodeHeight sc.ky
        (marginLeft + (p.1 : ℚ) * colSpacingOf (innerWidthOf w) sc.columns.length)
        p.2.1 p.2.2 marginTop := by
      rw [← hcoleq]
    rw [hcol2] at hnl
    have hheight := stackColumn_height _ _ _ _ _ _ _ hnl
    refine ⟨hheight, ?_, ?_⟩
    · rw [hheight]
      exact le_max_left _ _
    · intro nl2 hnl2 hval
      rw [hcol2] at hnl2
      have h2 := stackColumn_height _ _ _ _ _ _ _ hnl2
      rw [hheight, h2]
      have hky0 : (0 : ℚ) ≤ sc.ky := le_of_lt (hky ▸ kyOf_pos _ _ _ _)
      exact max_le_max le_rfl (mul_le_mul_of_nonneg_right hval hky0)

set_option maxRecDepth 8000 in
/-- C6 witness: the Salary node of the spec's example renders at height
`352 = 2000 × (22/125) ≥ 8` in the source column. -/
theorem height_invariant_witness :
    (NodeLayout.mk "inc-a" "Salary" NodeType.income 2000 "source" 40 24 18 352).height
        = max minNodeHeight
          ((NodeLayout.mk "inc-a" "Salary" NodeType.income 2000 "source" 40 24 18 352).value
            * sceneKy [Row.mk "a" "Salary" 2000]
              [Row.mk "b" "Rent" 1200, Row.mk "c" "Food" 400] 900 420)
      ∧ minNodeHeight
        ≤ (NodeLayout.mk "inc-a" "Salary" NodeType.income 2000 "source" 40 24 18 352).height :=
  ⟨(height_invariant [Row.mk "a" "Salary" 2000]
      [Row.mk "b" "Rent" 1200, Row.mk "c" "Food" 400] 900 420
      ("source", [NodeLayout.mk "inc-a" "Salary" NodeType.income 2000 "source" 40 24 18 352])
      (of_decide_eq_true (by with_unfolding_all rfl))
      (NodeLayout.mk "inc-a" "Salary" NodeType.income 2000 "source" 40 24 18 352)
      (of_decide_eq_true (by with_unfolding_all rfl))).1,
   (height_invariant [Row.mk "a" "Salary" 2000]
      [Row.mk "b" "Rent" 1200, Row.mk "c" "Food" 400] 900 420
      ("source", [NodeLayout.mk "inc-a" "Salary" NodeType.income 2000 "source" 40 24 18 352])
      (of_decide_eq_true (by with_unfolding_all rfl))
      (NodeLayout.mk "inc-a" "Salary" NodeType.income 2000 "source" 40 24 18 352)
      (of_decide_eq_true (by with_unfolding_all rfl))).2.1⟩

/-! ## Drag reordering -/

/-- The scan loop of the drag handler: on a strictly increasing center
list it computes the number of slot centers strictly below the dragged
center. -/
theorem scanIndexFrom_spec (c : ℚ) :
    ∀ (cs : List ℚ), cs.Chain' (· < ·) → ∀ (i acc : ℕ),
      scanIndexFrom c cs i acc
        = if cs.countP (fun v => v < c) = 0 then acc
          else i + cs.countP (fun v => v < c) := by
  intro cs
  induction cs with
  | nil => intro _ i acc; simp [scanIndexFrom]
  | cons x xs ih =>
    intro hchain i acc
    have hchain2 : xs.Chain' (· < ·) := hchain.tail
    rw [scanIndexFrom]
    by_cases hx : x < c
    · rw [if_pos hx, ih hchain2 (i + 1) (i + 1)]
      have hcount : (x :: xs).countP (fun v => v < c) = xs.countP (fun v => v < c) + 1 := by
        rw [List.countP_cons]
        simp [hx]
      rw [hcount]
      by_cases h0 : xs.countP (fun v => v < c) = 0
      · rw [if_pos h0, h0, if_neg (by omega)]
      · rw [if_neg h0, if_neg (by omega)]
        omega
    · rw [if_neg hx, ih hchain2 (i + 1) acc]
      have hnone : xs.countP (fun v => v < c) = 0 := by
        rw [List.countP_eq_zero]
        intro y hy
        have hxy : x < y :=
          (List.pairwise_cons.mp (List.chain'_iff_pairwise.mp hchain)).1 y hy
        simp only [decide_eq_true_eq]
        intro hyc
        exact hx (lt_trans hxy hyc)
      have hcons : (x :: xs).countP (fun v => v < c) = 0 := by
        rw [List.countP_cons]
        simp [hx, hnone]
      rw [hnone, hcons]
      simp

/-- With positive heights and padding the imagined slot centers are
strictly increasing down the column. -/
theorem slotCentersFrom_chain (pad : ℚ) (hpad : 0 < pad) :
    ∀ (ns : List NodeLayout) (y0 : ℚ), (∀ n ∈ ns, 0 < n.height) →
      (slotCentersFrom pad ns y0).Chain' (· < ·) := by
  intro ns
  induction ns with
  | nil => intro y0 _; exact List.chain'_nil
  | cons n ns ih =>
    intro y0 hpos
    cases ns with
    | nil => simp [slotCentersFrom]
    | cons m ms =>
      have hrest := ih (y0 + n.height + pad)
        (fun k hk => hpos k (List.mem_cons_of_mem n hk))
      simp only [slotCentersFrom] at hrest ⊢
      rw [List.chain'_cons]
      refine ⟨?_, hrest⟩
      have h1 := hpos n (List.mem_cons_self n _)
      have h2 := hpos m (List.mem_cons_of_mem n (List.mem_cons_self m _))
      linarith

/-- C3 (amended: the bottom-zone rule holds provided the top-edge test
does not fire first — the code checks the dragged node's top edge against
the top zone before anything else, so in a degenerately short column a
node whose center is in the bottom zone can still be sent to slot 0):
a center inside the top snap zone always forces index 0, and a center
inside the bottom snap zone forces the last slot whenever the node's top
edge sits strictly below the top snap zone. -/
theorem drag_snap (mTop innerH pad : ℚ) (colNodes : List NodeLayout) (d : NodeLayout)
    (hh : 0 ≤ d.height) :
    (d.y + d.height / 2 ≤ mTop + pad * (1 / 2) →
        dragNewIndex mTop innerH pad colNodes d = 0)
      ∧ (mTop + pad * (1 / 2) < d.y →
          mTop + innerH - pad * (1 / 2) ≤ d.y + d.height / 2 →
          dragNewIndex mTop innerH pad colNodes d = colNodes.length - 1) := by
  constructor
  · intro hcenter
    unfold dragNewIndex
    rw [if_pos (by linarith)]
  · intro htop hcenter
    unfold dragNewIndex
    rw [if_neg (by linarith), if_pos (by linarith)]

set_option maxRecDepth 8000 in
/-- C3 counterexample: at canvas height 58 (`innerHeight = 10`,
reachable through the component's `height` prop) a column of two
minimum-height nodes has overlapping snap zones: the dragged node at the
clamp limit `y = 26` has center `30`, inside the bottom zone
`[29, 34]`, yet the computed index is `0`, not the last slot `1`,
because the top-edge test (`26 ≤ 29`) fires first. -/
theorem drag_snap_cex :
    24 + 10 - 10 * (1 / 2)
        ≤ (NodeLayout.mk "inc-b" "B" NodeType.income 5 "source" 40 26 18 8).y
          + (NodeLayout.mk "inc-b" "B" NodeType.income 5 "source" 40 26 18 8).height / 2
      ∧ dragNewIndex 24 10 10
          [NodeLayout.mk "inc-a" "A" NodeType.income 5 "source" 40 24 18 8,
           NodeLayout.mk "inc-b" "B" NodeType.income 5 "source" 40 26 18 8]
          (NodeLayout.mk "inc-b" "B" NodeType.income 5 "source" 40 26 18 8) = 0
      ∧ ([NodeLayout.mk "inc-a" "A" NodeType.income 5 "source" 40 24 18 8,
          NodeLayout.mk "inc-b" "B" NodeType.income 5 "source" 40 26 18 8].length - 1 : ℕ)
          = 1 :=
  ⟨of_decide_eq_true (by with_unfolding_all rfl),
   of_decide_eq_true (by with_unfolding_all rfl),
   of_decide_eq_true (by with_unfolding_all rfl)⟩

set_option maxRecDepth 8000 in
/-- C3 witness: in a healthy 372-pixel column, a node with center in the
top zone is forced to slot 0, and one with center in the bottom zone and
top edge below the top zone is forced to the last slot. -/
theorem drag_snap_witness :
    dragNewIndex 24 372 10
        [NodeLayout.mk "inc-a" "A" NodeType.income 5 "source" 40 24 18 8,
         NodeLayout.mk "inc-b" "B" NodeType.income 5 "source" 40 42 18 8]
        (NodeLayout.mk "inc-a" "A" NodeType.income 5 "source" 40 24 18 8) = 0
      ∧ dragNewIndex 24 372 10
          [NodeLayout.mk "inc-a" "A" NodeType.income 5 "source" 40 24 18 8,
           NodeLayout.mk "inc-b" "B" NodeType.income 5 "source" 40 388 18 8]
          (NodeLayout.mk "inc-b" "B" NodeType.income 5 "source" 40 388 18 8)
        = ([NodeLayout.mk "inc-a" "A" NodeType.income 5 "source" 40 24 18 8,
            NodeLayout.mk "inc-b" "B" NodeType.income 5 "source" 40 388 18 8].length - 1 : ℕ) :=
  ⟨(drag_snap 24 372 10
      [NodeLayout.mk "inc-a" "A" NodeType.income 5 "source" 40 24 18 8,
       NodeLayout.mk "inc-b" "B" NodeType.income 5 "source" 40 42 18 8]
      (NodeLayout.mk "inc-a" "A" NodeType.income 5 "source" 40 24 18 8)
      (of_decide_eq_true (by with_unfolding_all rfl))).1
    (of_decide_eq_true (by with_unfolding_all rfl)),
   (drag_snap 24 372 10
      [NodeLayout.mk "inc-a" "A" NodeType.income 5 "source" 40 24 18 8,
       NodeLayout.mk "inc-b" "B" NodeType.income 5 "source" 40 388 18 8]
      (NodeLayout.mk "inc-b" "B" NodeType.income 5 "source" 40 388 18 8)
      (of_decide_eq_true (by with_unfolding_all rfl))).2
    (of_decide_eq_true (by with_unfolding_all rfl))
    (of_decide_eq_true (by with_unfolding_all rfl))⟩

/-- C4: outside both snap zones the insertion index is the number of slot
centers (other nodes stacked from the top margin without the dragged
node) strictly below the dragged node's center, and the column list is
spliced to that index exactly when it differs from the node's current
index. -/
theorem drag_scan (mTop innerH pad : ℚ) (colNodes : List NodeLayout) (d : NodeLayout)
    (hpad : 0 < pad) (hhs : ∀ n ∈ colNodes, 0 < n.height)
    (htop : mTop + pad * (1 / 2) < d.y)
    (hbot : d.y < mTop + innerH - pad * (1 / 2) - d.height) :
    dragNewIndex mTop innerH pad colNodes d
        = (slotCentersFrom pad (colNodes.filter (fun n => ¬n.id = d.id)) mTop).countP
            (fun v => v < d.y + d.height / 2)
      ∧ (∀ ci, findIndexFrom (fun n => n.id = d.id) colNodes 0 = some ci →
          dragReorder mTop innerH pad colNodes d
            = if dragNewIndex mTop innerH pad colNodes d = ci then colNodes
              else spliceInsert (dragNewIndex mTop innerH pad colNodes d) d
                  (spliceRemove ci colNodes)) := by
  have hchain : (slotCentersFrom pad (colNodes.filter (fun n => ¬n.id = d.id)) mTop).Chain'
      (· < ·) :=
    slotCentersFrom_chain pad hpad _ mTop
      (fun n hn => hhs n (List.mem_filter.mp hn).1)
  constructor
  · unfold dragNewIndex
    rw [if_neg (not_le.mpr htop), if_neg (not_le.mpr (by linarith)),
      scanIndexFrom_spec _ _ hchain 0 0]
    by_cases h0 : (slotCentersFrom pad (colNodes.filter (fun n => ¬n.id = d.id)) mTop).countP
        (fun v => v < d.y + d.height / 2) = 0
    · rw [if_pos h0, h0]
    · rw [if_neg h0, Nat.zero_add]
  · intro ci hci
    unfold dragReorder
    rw [hci]
    by_cases heq : dragNewIndex mTop innerH pad colNodes d = ci
    · simp [heq]
    · simp [heq]

set_option maxRecDepth 8000 in
/-- C4 witness: a three-node column with the dragged node's center below
both other slot centers computes index 2 and splices it to the end. -/
theorem drag_scan_witness :
    dragNewIndex 24 372 10
        [NodeLayout.mk "inc-a" "A" NodeType.income 100 "source" 40 24 18 100,
         NodeLayout.mk "inc-b" "B" NodeType.income 50 "source" 40 200 18 50,
         NodeLayout.mk "inc-c" "C" NodeType.income 80 "source" 40 290 18 80]
        (NodeLayout.mk "inc-b" "B" NodeType.income 50 "source" 40 200 18 50)
        = (slotCentersFrom 10
            ([NodeLayout.mk "inc-a" "A" NodeType.income 100 "source" 40 24 18 100,
              NodeLayout.mk "inc-b" "B" NodeType.income 50 "source" 40 200 18 50,
              NodeLayout.mk "inc-c" "C" NodeType.income 80 "source" 40 290 18 80].filter
              (fun n => ¬n.id = (NodeLayout.mk "inc-b" "B" NodeType.income 50
                "source" 40 200 18 50).id)) 24).countP
            (fun v => v < (NodeLayout.mk "inc-b" "B" NodeType.income 50
              "source" 40 200 18 50).y
              + (NodeLayout.mk "inc-b" "B" NodeType.income 50 "source" 40 200 18 50).height / 2)
      ∧ dragReorder 24 372 10
          [NodeLayout.mk "inc-a" "A" NodeType.income 100 "source" 40 24 18 100,
           NodeLayout.mk "inc-b" "B" NodeType.income 50 "source" 40 200 18 50,
           NodeLayout.mk "inc-c" "C" NodeType.income 80 "source" 40 290 18 80]
          (NodeLayout.mk "inc-b" "B" NodeType.income 50 "source" 40 200 18 50)
          = if dragNewIndex 24 372 10
              [NodeLayout.mk "inc-a" "A" NodeType.income 100 "source" 40 24 18 100,
               NodeLayout.mk "inc-b" "B" NodeType.income 50 "source" 40 200 18 50,
               NodeLayout.mk "inc-c" "C" NodeType.income 80 "source" 40 290 18 80]
              (NodeLayout.mk "inc-b" "B" NodeType.income 50 "source" 40 200 18 50) = 1
            then
              [NodeLayout.mk "inc-a" "A" NodeType.income 100 "source" 40 24 18 100,
               NodeLayout.mk "inc-b" "B" NodeType.income 50 "source" 40 200 18 50,
               NodeLayout.mk "inc-c" "C" NodeType.income 80 "source" 40 290 18 80]
            else
              spliceInsert
                (dragNewIndex 24 372 10
                  [NodeLayout.mk "inc-a" "A" NodeType.income 100 "source" 40 24 18 100,
                   NodeLayout.mk "inc-b" "B" NodeType.income 50 "source" 40 200 18 50,
                   NodeLayout.mk "inc-c" "C" NodeType.income 80 "source" 40 290 18 80]
                  (NodeLayout.mk "inc-b" "B" NodeType.income 50 "source" 40 200 18 50))
                (NodeLayout.mk "inc-b" "B" NodeType.income 50 "source" 40 200 18 50)
                (spliceRemove 1
                  [NodeLayout.mk "inc-a" "A" NodeType.income 100 "source" 40 24 18 100,
                   NodeLayout.mk "inc-b" "B" NodeType.income 50 "source" 40 200 18 50,
                   NodeLayout.mk "inc-c" "C" NodeType.income 80 "source" 40 290 18 80]) :=
  ⟨(drag_scan 24 372 10
      [NodeLayout.mk "inc-a" "A" NodeType.income 100 "source" 40 24 18 100,
       NodeLayout.mk "inc-b" "B" NodeType.income 50 "source" 40 200 18 50,
       NodeLayout.mk "inc-c" "C" NodeType.income 80 "source" 40 290 18 80]
      (NodeLayout.mk "inc-b" "B" NodeType.income 50 "source" 40 200 18 50)
      (by decide) (by decide)
      (of_decide_eq_true (by with_unfolding_all rfl))
      (of_decide_eq_true (by with_unfolding_all rfl))).1,
   (drag_scan 24 372 10
      [NodeLayout.mk "inc-a" "A" NodeType.income 100 "source" 40 24 18 100,
       NodeLayout.mk "inc-b" "B" NodeType.income 50 "source" 40 200 18 50,
       NodeLayout.mk "inc-c" "C" NodeType.income 80 "source" 40 290 18 80]
      (NodeLayout.mk "inc-b" "B" NodeType.income 50 "source" 40 200 18 50)
      (by decide) (by decide)
      (of_decide_eq_true (by with_unfolding_all rfl))
      (of_decide_eq_true (by with_unfolding_all rfl))).2
    1 (of_decide_eq_true (by with_unfolding_all rfl))⟩

/-! ## The drag step as a permutation -/

theorem scanIndexFrom_le (c : ℚ) :
    ∀ (cs : List ℚ) (i acc : ℕ), acc ≤ i → scanIndexFrom c cs i acc ≤ i + cs.length := by
  intro cs
  induction cs with
  | nil => intro i acc h; simpa [scanIndexFrom] using h
  | cons x xs ih =>
    intro i acc h
    rw [scanIndexFrom]
    have := ih (i + 1) (if x < c then i + 1 else acc) (by split <;> omega)
    calc scanIndexFrom c xs (i + 1) (if x < c then i + 1 else acc)
        ≤ (i + 1) + xs.length := this
      _ = i + (x :: xs).length := by simp; omega

theorem slotCentersFrom_length (pad : ℚ) :
    ∀ (ns : List NodeLayout) (y0 : ℚ), (slotCentersFrom pad ns y0).length = ns.length := by
  intro ns
  induction ns with
  | nil => intro y0; rfl
  | cons n ns ih => intro y0; simp [slotCentersFrom, ih]

theorem filter_ne_length_lt {l : List NodeLayout} {d : NodeLayout} (hd : d ∈ l) :
    (l.filter (fun n => ¬n.id = d.id)).length < l.length := by
  induction l with
  | nil => cases hd
  | cons a as ih =>
    by_cases ha : a.id = d.id
    · rw [List.filter_cons_of_neg (by simp [ha])]
      exact Nat.lt_succ_of_le (List.length_filter_le _ as)
    · have hdas : d ∈ as := by
        rcases List.mem_cons.mp hd with rfl | h2
        · exact absurd rfl ha
        · exact h2
      rw [List.filter_cons_of_pos (by simp [ha])]
      simpa using ih hdas

theorem findIndexFrom_nodup_aux :
    ∀ (l : List NodeLayout) (d : NodeLayout) (i : ℕ), d ∈ l →
      (l.map NodeLayout.id).Nodup →
      ∃ k, findIndexFrom (fun n => n.id = d.id) l i = some (i + k) ∧ l.get? k = some d := by
  intro l
  induction l with
  | nil => intro d i hd; cases hd
  | cons a as ih =>
    intro d i hd hnd
    rw [List.map_cons, List.nodup_cons] at hnd
    by_cases ha : a.id = d.id
    · have had : a = d := by
        rcases List.mem_cons.mp hd with rfl | h2
        · rfl
        · exact absurd (ha ▸ List.mem_map_of_mem NodeLayout.id h2) hnd.1
      refine ⟨0, ?_, by rw [had]; rfl⟩
      rw [findIndexFrom, if_pos (by simp [ha])]
      rw [Nat.add_zero]
    · have hdas : d ∈ as := by
        rcases List.mem_cons.mp hd with rfl | h2
        · exact absurd rfl ha
        · exact h2
      obtain ⟨k, hfind, hget⟩ := ih d (i + 1) hdas hnd.2
      refine ⟨k + 1, ?_, hget⟩
      rw [findIndexFrom, if_neg (by simp [ha]), hfind]
      congr 1
      omega

theorem spliceRemove_perm {α : Type} :
    ∀ (l : List α) (k : ℕ) (d : α), l.get? k = some d → l.Perm (d :: spliceRemove k l) := by
  intro l
  induction l with
  | nil => intro k d h; cases h
  | cons a as ih =>
    intro k d h
    cases k with
    | zero =>
      have had : a = d := Option.some.inj h
      rw [had]
      exact List.Perm.refl _
    | succ k =>
      have hperm := ih k d h
      have h1 : (a :: as).Perm (a :: d :: spliceRemove k as) := hperm.cons a
      have h2 : (a :: d :: spliceRemove k as).Perm (d :: a :: spliceRemove k as) :=
        List.Perm.swap d a _
      exact h1.trans h2

theorem spliceInsert_perm {α : Type} (xs : List α) (k : ℕ) (a : α) :
    (spliceInsert k a xs).Perm (a :: xs) := by
  unfold spliceInsert
  calc (xs.take k ++ a :: xs.drop k).Perm (a :: (xs.take k ++ xs.drop k)) := List.perm_middle
    _ = a :: xs := by rw [List.take_append_drop]

/-- C10 (amended: the column's node ids must be pairwise distinct, as
they are whenever the entry row ids are distinct): the computed insertion
index always lies within `[0, column length − 1]`, the other-node slot
centers are strictly increasing for positive heights and padding, and the
drag splice returns a permutation of the column — no node dropped,
duplicated, or moved across columns. -/
theorem drag_permutation (mTop innerH pad : ℚ) (colNodes : List NodeLayout) (d : NodeLayout)
    (hd : d ∈ colNodes) (hnd : (colNodes.map NodeLayout.id).Nodup)
    (hpad : 0 < pad) (hhs : ∀ n ∈ colNodes, 0 < n.height) :
    dragNewIndex mTop innerH pad colNodes d ≤ colNodes.length - 1
      ∧ (slotCentersFrom pad (colNodes.filter (fun n => ¬n.id = d.id)) mTop).Chain' (· < ·)
      ∧ (dragReorder mTop innerH pad colNodes d).Perm colNodes := by
  have hlen : (colNodes.filter (fun n => ¬n.id = d.id)).length < colNodes.length :=
    filter_ne_length_lt hd
  refine ⟨?_, ?_, ?_⟩
  · unfold dragNewIndex
    dsimp only
    by_cases h1 : d.y ≤ mTop + pad * (1 / 2)
    · rw [if_pos h1]
      exact Nat.zero_le _
    · rw [if_neg h1]
      by_cases h2 : mTop + innerH - pad * (1 / 2) - d.height ≤ d.y
      · rw [if_pos h2]
      · rw [if_neg h2]
        have hb := scanIndexFrom_le (d.y + d.height / 2)
          (slotCentersFrom pad (colNodes.filter (fun n => ¬n.id = d.id)) mTop) 0 0
          (Nat.le_refl 0)
        rw [slotCentersFrom_length] at hb
        omega
  · exact slotCentersFrom_chain pad hpad _ mTop
      (fun n hn => hhs n (List.mem_filter.mp hn).1)
  · unfold dragReorder
    obtain ⟨k, hfind, hget⟩ := findIndexFrom_nodup_aux colNodes d 0 hd hnd
    rw [Nat.zero_add] at hfind
    rw [hfind]
    dsimp only
    by_cases heq : dragNewIndex mTop innerH pad colNodes d ≠ k
    · rw [if_pos heq]
      exact (spliceInsert_perm _ _ _).trans (spliceRemove_perm colNodes k d hget).symm
    · rw [if_neg heq]

set_option maxRecDepth 8000 in
/-- C10 counterexample: with two nodes sharing the id `inc-a` (duplicate
entry row ids), `findIndex` locates the first duplicate while the dragged
node is the second, so the splice removes node `A` and re-inserts the
dragged `B`, yielding `[B, C, B]` — not a permutation of the column. -/
theorem drag_permutation_cex :
    ¬(dragReorder 24 372 10
        [NodeLayout.mk "inc-a" "A" NodeType.income 30 "source" 40 24 18 8,
         NodeLayout.mk "inc-a" "B" NodeType.income 30 "source" 40 383 18 8,
         NodeLayout.mk "inc-c" "C" NodeType.income 5 "source" 40 60 18 8]
        (NodeLayout.mk "inc-a" "B" NodeType.income 30 "source" 40 383 18 8)).Perm
      [NodeLayout.mk "inc-a" "A" NodeType.income 30 "source" 40 24 18 8,
       NodeLayout.mk "inc-a" "B" NodeType.income 30 "source" 40 383 18 8,
       NodeLayout.mk "inc-c" "C" NodeType.income 5 "source" 40 60 18 8] :=
  of_decide_eq_true (by with_unfolding_all rfl)

set_option maxRecDepth 8000 in
/-- C10 witness: the amended invariant on a three-node column with
distinct ids. -/
theorem drag_permutation_witness :
    dragNewIndex 24 372 10
        [NodeLayout.mk "inc-a" "A" NodeType.income 100 "source" 40 24 18 100,
         NodeLayout.mk "inc-b" "B" NodeType.income 50 "source" 40 200 18 50,
         NodeLayout.mk "inc-c" "C" NodeType.income 80 "source" 40 290 18 80]
        (NodeLayout.mk "inc-b" "B" NodeType.income 50 "source" 40 200 18 50)
        ≤ ([NodeLayout.mk "inc-a" "A" NodeType.income 100 "source" 40 24 18 100,
            NodeLayout.mk "inc-b" "B" NodeType.income 50 "source" 40 200 18 50,
            NodeLayout.mk "inc-c" "C" NodeType.income 80 "source" 40 290 18 80].length - 1 : ℕ)
      ∧ (slotCentersFrom 10
          ([NodeLayout.mk "inc-a" "A" NodeType.income 100 "source" 40 24 18 100,
            NodeLayout.mk "inc-b" "B" NodeType.income 50 "source" 40 200 18 50,
            NodeLayout.mk "inc-c" "C" NodeType.income 80 "source" 40 290 18 80].filter
            (fun n => ¬n.id = (NodeLayout.mk "inc-b" "B" NodeType.income 50
              "source" 40 200 18 50).id)) 24).Chain' (· < ·)
      ∧ (dragReorder 24 372 10
          [NodeLayout.mk "inc-a" "A" NodeType.income 100 "source" 40 24 18 100,
           NodeLayout.mk "inc-b" "B" NodeType.income 50 "source" 40 200 18 50,
           NodeLayout.mk "inc-c" "C" NodeType.income 80 "source" 40 290 18 80]
          (NodeLayout.mk "inc-b" "B" NodeType.income 50 "source" 40 200 18 50)).Perm
        [NodeLayout.mk "inc-a" "A" NodeType.income 100 "source" 40 24 18 100,
         NodeLayout.mk "inc-b" "B" NodeType.income 50 "source" 40 200 18 50,
         NodeLayout.mk "inc-c" "C" NodeType.income 80 "source" 40 290 18 80] :=
  drag_permutation 24 372 10
    [NodeLayout.mk "inc-a" "A" NodeType.income 100 "source" 40 24 18 100,
     NodeLayout.mk "inc-b" "B" NodeType.income 50 "source" 40 200 18 50,
     NodeLayout.mk "inc-c" "C" NodeType.income 80 "source" 40 290 18 80]
    (NodeLayout.mk "inc-b" "B" NodeType.income 50 "source" 40 200 18 50)
    (by decide) (by decide) (by decide) (by decide)

/-! ## Router slice heights -/

/-- The source-side slice height of one link, as the router computes it
(independent of the running offsets). -/
def srcSliceOf (lookup : String → Option NodeLayout) (outF totF : String → ℚ)
    (l : LinkDatum) : ℚ :=
  match lookup l.source with
  | none => 0
  | some s =>
    if 0 < jsOr (outF l.source) (jsOr (totF l.source) 0) then
      l.value / jsOr (outF l.source) (jsOr (totF l.source) 0) * s.height
    else 0

/-- The target-side slice height of one link. -/
def tgtSliceOf (lookup : String → Option NodeLayout) (inF totF : String → ℚ)
    (l : LinkDatum) : ℚ :=
  match lookup l.target with
  | none => 0
  | some t =>
    if 0 < jsOr (inF l.target) (jsOr (totF l.target) 0) then
      l.value / jsOr (inF l.target) (jsOr (totF l.target) 0) * t.height
    else 0

theorem routeAux_src_heights (lookup : String → Option NodeLayout)
    (outF inF totF : String → ℚ) :
    ∀ (ls : List LinkDatum) (sOff tOff : String → ℚ),
      (∀ l ∈ ls, (lookup l.source).isSome ∧ (lookup l.target).isSome) →
      (routeAux lookup outF inF totF ls sOff tOff).map srcSliceHeight
        = ls.map (srcSliceOf lookup outF totF) := by
  intro ls
  induction ls with
  | nil => intro _ _ _; rfl
  | cons l ls ih =>
    intro sOff tOff hlooks
    have hhead := hlooks l (List.mem_cons_self l ls)
    have htail := fun x hx => hlooks x (List.mem_cons_of_mem l hx)
    rcases hS : lookup l.source with _ | s
    · rw [hS] at hhead
      simp at hhead
    · rcases hT : lookup l.target with _ | t
      · rw [hT] at hhead
        simp at hhead
      · rw [routeAux, hS, hT]
        rw [List.map_cons, List.map_cons, ih _ _ htail]
        congr 1
        show (s.y + sOff l.source
            + (if 0 < jsOr (outF l.source) (jsOr (totF l.source) 0) then
                l.value / jsOr (outF l.source) (jsOr (totF l.source) 0) * s.height else 0))
            - (s.y + sOff l.source) = srcSliceOf lookup outF totF l
        rw [add_sub_cancel_left, srcSliceOf, hS]

theorem routeAux_tgt_heights (lookup : String → Option NodeLayout)
    (outF inF totF : String → ℚ) :
    ∀ (ls : List LinkDatum) (sOff tOff : String → ℚ),
      (∀ l ∈ ls, (lookup l.source).isSome ∧ (lookup l.target).isSome) →
      (routeAux lookup outF inF totF ls sOff tOff).map tgtSliceHeight
        = ls.map (tgtSliceOf lookup inF totF) := by
  intro ls
  induction ls with
  | nil => intro _ _ _; rfl
  | cons l ls ih =>
    intro sOff tOff hlooks
    have hhead := hlooks l (List.mem_cons_self l ls)
    have htail := fun x hx => hlooks x (List.mem_cons_of_mem l hx)
    rcases hS : lookup l.source with _ | s
    · rw [hS] at hhead
      simp at hhead
    · rcases hT : lookup l.target with _ | t
      · rw [hT] at hhead
        simp at hhead
      · rw [routeAux, hS, hT]
        rw [List.map_cons, List.map_cons, ih _ _ htail]
        congr 1
        show (t.y + tOff l.target
            + (if 0 < jsOr (inF l.target) (jsOr (totF l.target) 0) then
                l.value / jsOr (inF l.target) (jsOr (totF l.target) 0) * t.height else 0))
            - (t.y + tOff l.target) = tgtSliceOf lookup inF totF l
        rw [add_sub_cancel_left, tgtSliceOf, hT]

theorem zip_filter_map_eq {α β γ : Type} (f : α → γ) (g : β → γ) (q : α → Bool) :
    ∀ (xs : List α) (ys : List β), ys.map g = xs.map f →
      ((xs.zip ys).filter (fun p => q p.1)).map (fun p => g p.2) = (xs.filter q).map f := by
  intro xs
  induction xs with
  | nil => intro ys _; simp
  | cons x xs ih =>
    intro ys hmap
    cases ys with
    | nil => simp at hmap
    | cons y ys =>
      rw [List.map_cons, List.map_cons] at hmap
      have hhead : g y = f x := (List.cons.injEq _ _ _ _ ▸ hmap).1
      have htail : ys.map g = xs.map f := (List.cons.injEq _ _ _ _ ▸ hmap).2
      by_cases hq : q x <;>
        simp [List.zip_cons_cons, List.filter_cons, hq, ih ys htail, hhead]

theorem zip_map_eq_forall {α β γ : Type} (f : α → γ) (g : β → γ) :
    ∀ (xs : List α) (ys : List β), ys.map g = xs.map f →
      ∀ p ∈ xs.zip ys, g p.2 = f p.1 := by
  intro xs
  induction xs with
  | nil => intro ys _ p hp; simp at hp
  | cons x xs ih =>
    intro ys hmap p hp
    cases ys with
    | nil => simp at hp
    | cons y ys =>
      rw [List.map_cons, List.map_cons] at hmap
      have hhead : g y = f x := (List.cons.injEq _ _ _ _ ▸ hmap).1
      have htail : ys.map g = xs.map f := (List.cons.injEq _ _ _ _ ▸ hmap).2
      rcases List.mem_cons.mp hp with rfl | hmem
      · exact hhead
      · exact ih ys htail p hmem

/-- C7: with totals taken from the links (as `updateLinkPaths` receives
them), the source-side slice heights of a node's outbound links sum to
the node's rendered height whenever it has an outbound link, symmetrically
for inbound, and each slice height is `linkValue / nodeTotal × height`;
slices stack in declaration order through the running offsets of
`routeAux`. -/
theorem slice_conservation (lookup : String → Option NodeLayout) (totF : String → ℚ)
    (links : List LinkDatum) (nid : String) (nl : NodeLayout)
    (hlook : lookup nid = some nl)
    (hlooks : ∀ l ∈ links, (lookup l.source).isSome ∧ (lookup l.target).isSome)
    (hposOut : ∀ l ∈ links, l.source = nid → 0 < l.value)
    (hposIn : ∀ l ∈ links, l.target = nid → 0 < l.value) :
    (links.filter (fun l => l.source = nid) ≠ [] →
        (((links.zip (updateLinkPaths lookup (outSum links) (inSum links) totF links)).filter
            (fun p => p.1.source = nid)).map (fun p => srcSliceHeight p.2)).sum = nl.height)
      ∧ (links.filter (fun l => l.target = nid) ≠ [] →
          (((links.zip (updateLinkPaths lookup (outSum links) (inSum links) totF links)).filter
              (fun p => p.1.target = nid)).map (fun p => tgtSliceHeight p.2)).sum = nl.height)
      ∧ (links.filter (fun l => l.source = nid) ≠ [] →
          ∀ p ∈ links.zip (updateLinkPaths lookup (outSum links) (inSum links) totF links),
            p.1.source = nid →
            srcSliceHeight p.2 = p.1.value / outSum links nid * nl.height)
      ∧ (links.filter (fun l => l.target = nid) ≠ [] →
          ∀ p ∈ links.zip (updateLinkPaths lookup (outSum links) (inSum links) totF links),
            p.1.target = nid →
            tgtSliceHeight p.2 = p.1.value / inSum links nid * nl.height) := by
  have hmapSrc : (updateLinkPaths lookup (outSum links) (inSum links) totF links).map
      srcSliceHeight = links.map (srcSliceOf lookup (outSum links) totF) :=
    routeAux_src_heights lookup (outSum links) (inSum links) totF links _ _ hlooks
  have hmapTgt : (updateLinkPaths lookup (outSum links) (inSum links) totF links).map
      tgtSliceHeight = links.map (tgtSliceOf lookup (inSum links) totF) :=
    routeAux_tgt_heights lookup (outSum links) (inSum links) totF links _ _ hlooks
  have hToutPos : links.filter (fun l => l.source = nid) ≠ [] → 0 < outSum links nid := by
    intro hne
    apply List.sum_pos
    · intro a ha
      rcases List.mem_map.mp ha with ⟨l, hl, rfl⟩
      exact hposOut l (List.mem_of_mem_filter hl) (by simpa using (List.mem_filter.mp hl).2)
    · simpa [List.map_eq_nil_iff] using hne
  have hTinPos : links.filter (fun l => l.target = nid) ≠ [] → 0 < inSum links nid := by
    intro hne
    apply List.sum_pos
    · intro a ha
      rcases List.mem_map.mp ha with ⟨l, hl, rfl⟩
      exact hposIn l (List.mem_of_mem_filter hl) (by simpa using (List.mem_filter.mp hl).2)
    · simpa [List.map_eq_nil_iff] using hne
  have hsrcOf : ∀ l ∈ links, l.source = nid → 0 < outSum links nid →
      srcSliceOf lookup (outSum links) totF l = l.value / outSum links nid * nl.height := by
    intro l hl hsrc hT
    unfold srcSliceOf
    rw [hsrc, hlook]
    show (if 0 < jsOr (outSum links nid) (jsOr (totF nid) 0) then
        l.value / jsOr (outSum links nid) (jsOr (totF nid) 0) * nl.height else 0)
      = l.value / outSum links nid * nl.height
    rw [jsOr, if_neg (ne_of_gt hT), if_pos hT]
  have htgtOf : ∀ l ∈ links, l.target = nid → 0 < inSum links nid →
      tgtSliceOf lookup (inSum links) totF l = l.value / inSum links nid * nl.height := by
    intro l hl htgt hT
    unfold tgtSliceOf
    rw [htgt, hlook]
    show (if 0 < jsOr (inSum links nid) (jsOr (totF nid) 0) then
        l.value / jsOr (inSum links nid) (jsOr (totF nid) 0) * nl.height else 0)
      = l.value / inSum links nid * nl.height
    rw [jsOr, if_neg (ne_of_gt hT), if_pos hT]
  refine ⟨?_, ?_, ?_, ?_⟩
  · intro hne
    have hT := hToutPos hne
    rw [zip_filter_map_eq (srcSliceOf lookup (outSum links) totF) srcSliceHeight
      (fun x => decide (x.source = nid)) links _ hmapSrc]
    rw [List.map_congr_left (fun l hl =>
      hsrcOf l (List.mem_of_mem_filter hl)
        (by simpa using (List.mem_filter.mp hl).2) hT)]
    have hrw : ∀ l ∈ links.filter (fun l => l.source = nid),
        l.value / outSum links nid * nl.height
          = l.value * (nl.height / outSum links nid) := by
      intro l _
      ring
    rw [List.map_congr_left hrw, List.sum_map_mul_right]
    have hsum : ((links.filter (fun l => l.source = nid)).map (fun l => l.value)).sum
        = outSum links nid := rfl
    rw [hsum, mul_comm, div_mul_cancel₀ _ (ne_of_gt hT)]
  · intro hne
    have hT := hTinPos hne
    rw [zip_filter_map_eq (tgtSliceOf lookup (inSum links) totF) tgtSliceHeight
      (fun x => decide (x.target = nid)) links _ hmapTgt]
    rw [List.map_congr_left (fun l hl =>
      htgtOf l (List.mem_of_mem_filter hl)
        (by simpa using (List.mem_filter.mp hl).2) hT)]
    have hrw : ∀ l ∈ links.filter (fun l => l.target = nid),
        l.value / inSum links nid * nl.height
          = l.value * (nl.height / inSum links nid) := by
      intro l _
      ring
    rw [List.map_congr_left hrw, List.sum_map_mul_right]
    have hsum : ((links.filter (fun l => l.target = nid)).map (fun l => l.value)).sum
        = inSum links nid := rfl
    rw [hsum, mul_comm, div_mul_cancel₀ _ (ne_of_gt hT)]
  · intro hne p hp hpsrc
    have hT := hToutPos hne
    obtain ⟨l, os⟩ := p
    rw [zip_map_eq_forall _ _ links _ hmapSrc (l, os) hp]
    exact hsrcOf l (List.of_mem_zip hp).1 hpsrc hT
  · intro hne p hp hptgt
    have hT := hTinPos hne
    obtain ⟨l, os⟩ := p
    rw [zip_map_eq_forall _ _ links _ hmapTgt (l, os) hp]
    exact htgtOf l (List.of_mem_zip hp).1 hptgt hT

set_option maxRecDepth 8000 in
/-- C7 witness: a pool with one inbound and one outbound link of value
1000 and height 100 — the outbound slice heights of the pool sum to its
full height. -/
theorem slice_conservation_witness :
    ((([LinkDatum.mk "inc-a" "budget" 1000, LinkDatum.mk "budget" "exp-b" 1000].zip
        (updateLinkPaths
          (fun s => if s = "inc-a" then
              some (NodeLayout.mk "inc-a" "Salary" NodeType.income 1000 "source" 40 24 18 100)
            else if s = "budget" then
              some (NodeLayout.mk "budget" "Total Budget" NodeType.pool 1000 "budget" 450 24 18 100)
            else if s = "exp-b" then
              some (NodeLayout.mk "exp-b" "Rent" NodeType.expense 1000 "out" 860 24 18 100)
            else none)
          (outSum [LinkDatum.mk "inc-a" "budget" 1000, LinkDatum.mk "budget" "exp-b" 1000])
          (inSum [LinkDatum.mk "inc-a" "budget" 1000, LinkDatum.mk "budget" "exp-b" 1000])
          (fun _ => 0)
          [LinkDatum.mk "inc-a" "budget" 1000, LinkDatum.mk "budget" "exp-b" 1000])).filter
        (fun p => p.1.source = "budget")).map (fun p => srcSliceHeight p.2)).sum
      = (NodeLayout.mk "budget" "Total Budget" NodeType.pool 1000 "budget" 450 24 18 100).height :=
  (slice_conservation
    (fun s => if s = "inc-a" then
        some (NodeLayout.mk "inc-a" "Salary" NodeType.income 1000 "source" 40 24 18 100)
      else if s = "budget" then
        some (NodeLayout.mk "budget" "Total Budget" NodeType.pool 1000 "budget" 450 24 18 100)
      else if s = "exp-b" then
        some (NodeLayout.mk "exp-b" "Rent" NodeType.expense 1000 "out" 860 24 18 100)
      else none)
    (fun _ => 0)
    [LinkDatum.mk "inc-a" "budget" 1000, LinkDatum.mk "budget" "exp-b" 1000]
    "budget"
    (NodeLayout.mk "budget" "Total Budget" NodeType.pool 1000 "budget" 450 24 18 100)
    (of_decide_eq_true (by with_unfolding_all rfl))
    (of_decide_eq_true (by with_unfolding_all rfl))
    (of_decide_eq_true (by with_unfolding_all rfl))
    (of_decide_eq_true (by with_unfolding_all rfl))).1
    (of_decide_eq_true (by with_unfolding_all rfl))

/-! ## Empty state -/

/-- C9: when both filtered totals are ≤ 0, or when link construction
yields no links, both the graph builder and the full render signal the
empty state (`none`): no node list, link list, layout or interaction
state is constructed; in particular this is a normal outcome, not an
error. -/
theorem empty_state (rI rE : List Row) (w h : ℚ) :
    ((totalIncomeOf rI ≤ 0 ∧ totalExpenseOf rE ≤ 0) →
        buildGraph rI rE = none ∧ renderOf rI rE w h = none)
      ∧ (linksOf (incomesOf rI) (expensesOf rE)
            (debtTotalOf (totalIncomeOf rI) (totalExpenseOf rE))
            (savingsTotalOf (totalIncomeOf rI) (totalExpenseOf rE)) = [] →
          buildGraph rI rE = none ∧ renderOf rI rE w h = none)
      ∧ (buildGraph rI rE = none → builtNodes rI rE = [] ∧ builtLinks rI rE = []) := by
  refine ⟨?_, ?_, ?_⟩
  · intro hguard
    have hbg : buildGraph rI rE = none := by
      unfold buildGraph
      rw [if_pos hguard]
    exact ⟨hbg, by simp [renderOf, hbg]⟩
  · intro hlinks
    have hbg : buildGraph rI rE = none := by
      unfold buildGraph
      by_cases hg : totalIncomeOf rI ≤ 0 ∧ totalExpenseOf rE ≤ 0
      · rw [if_pos hg]
      · rw [if_neg hg, if_pos hlinks]
    exact ⟨hbg, by simp [renderOf, hbg]⟩
  · intro hbg
    exact ⟨by simp [builtNodes, hbg], by simp [builtLinks, hbg]⟩

/-- C9 witness: empty income and expense lists produce the empty-state
signal with no graph built. -/
theorem empty_state_witness :
    buildGraph ([] : List Row) ([] : List Row) = none
      ∧ renderOf ([] : List Row) ([] : List Row) 900 420 = none :=
  (empty_state [] [] 900 420).1 (of_decide_eq_true (by with_unfolding_all rfl))

/-! ## Breadth-first highlight: endpoint and enumeration lemmas -/

theorem otherEnd_cases (nid : String) (l : LinkDatum) :
    otherEnd nid l = l.source ∨ otherEnd nid l = l.target := by
  unfold otherEnd
  split
  · exact Or.inr rfl
  · exact Or.inl rfl

/-- In a star graph, the neighbour of a non-pool node along an incident
link is the pool. -/
theorem otherEnd_of_star {nid : String} {l : LinkDatum}
    (hstar : l.source = "budget" ∨ l.target = "budget")
    (hinc : l.source = nid ∨ l.target = nid) (hne : nid ≠ "budget") :
    otherEnd nid l = "budget" := by
  unfold otherEnd
  by_cases hs : l.source = nid
  · rw [if_pos hs]
    rcases hstar with h | h
    · exact absurd (hs ▸ h) hne
    · exact h
  · rw [if_neg hs]
    rcases hinc with h | h
    · exact absurd h hs
    · rcases hstar with h2 | h2
      · exact h2
      · exact absurd (h ▸ h2 : nid = "budget") hne

/-- In a star graph, the endpoints of a link incident to a non-pool node
are that node and the pool. -/
theorem endpoints_of_star {nid : String} {l : LinkDatum}
    (hstar : l.source = "budget" ∨ l.target = "budget")
    (hinc : l.source = nid ∨ l.target = nid) (hne : nid ≠ "budget")
    {y : String} (hy : l.source = y ∨ l.target = y) : y = nid ∨ y = "budget" := by
  rcases hy with h3 | h3
  · by_cases hb : l.source = "budget"
    · exact Or.inr (h3 ▸ hb)
    · rcases hinc with h2 | h2
      · exact Or.inl (h3 ▸ h2)
      · have ht : l.target = "budget" := by
          rcases hstar with h | h
          · exact absurd h hb
          · exact h
        exact absurd (h2 ▸ ht) hne
  · by_cases hb : l.target = "budget"
    · exact Or.inr (h3 ▸ hb)
    · have hsrc : l.source = "budget" := by
        rcases hstar with h | h
        · exact h
        · exact absurd h hb
      rcases hinc with h2 | h2
      · exact absurd (h2 ▸ hsrc) hne
      · exact Or.inl (h3 ▸ h2)

theorem mem_enumFrom_mem {α : Type} :
    ∀ {xs : List α} {i j : ℕ} {l : α}, (j, l) ∈ enumFrom i xs → l ∈ xs := by
  intro xs
  induction xs with
  | nil => intro i j l h; cases h
  | cons x xs ih =>
    intro i j l h
    rcases List.mem_cons.mp h with heq | hmem
    · rw [show x = l from congrArg Prod.snd heq.symm]
      exact List.mem_cons_self l xs
    · exact List.mem_cons_of_mem x (ih hmem)

theorem mem_enumFrom_bounds {α : Type} :
    ∀ {xs : List α} {i j : ℕ} {l : α}, (j, l) ∈ enumFrom i xs →
      i ≤ j ∧ j < i + xs.length := by
  intro xs
  induction xs with
  | nil => intro i j l h; cases h
  | cons x xs ih =>
    intro i j l h
    rcases List.mem_cons.mp h with heq | hmem
    · have hji : j = i := congrArg Prod.fst heq
      subst hji
      refine ⟨le_refl j, ?_⟩
      rw [List.length_cons]
      omega
    · obtain ⟨h1, h2⟩ := ih hmem
      constructor
      · omega
      · rw [List.length_cons]
        omega

theorem mem_enumFrom_functional {α : Type} :
    ∀ {xs : List α} {i j : ℕ} {l l2 : α},
      (j, l) ∈ enumFrom i xs → (j, l2) ∈ enumFrom i xs → l = l2 := by
  intro xs
  induction xs with
  | nil => intro i j l l2 h; cases h
  | cons x xs ih =>
    intro i j l l2 h h2
    rcases List.mem_cons.mp h with heq | hmem <;>
      rcases List.mem_cons.mp h2 with heq2 | hmem2
    · have e1 : l = x := congrArg Prod.snd heq
      have e2 : l2 = x := congrArg Prod.snd heq2
      rw [e1, e2]
    · have hj : j = i := congrArg Prod.fst heq
      have hb := mem_enumFrom_bounds hmem2
      omega
    · have hj : j = i := congrArg Prod.fst heq2
      have hb := mem_enumFrom_bounds hmem
      omega
    · exact ih hmem hmem2

theorem mem_enumFrom_of_mem {α : Type} :
    ∀ {xs : List α} {l : α} (i : ℕ), l ∈ xs → ∃ j, (j, l) ∈ enumFrom i xs := by
  intro xs
  induction xs with
  | nil => intro l i h; cases h
  | cons x xs ih =>
    intro l i h
    rcases List.mem_cons.mp h with heq | hmem
    · exact ⟨i, heq ▸ List.mem_cons_self _ _⟩
    · obtain ⟨j, hj⟩ := ih (i + 1) hmem
      exact ⟨j, List.mem_cons_of_mem _ hj⟩

theorem mem_enumFrom_of_lt {α : Type} :
    ∀ {xs : List α} {i j : ℕ}, i ≤ j → j < i + xs.length →
      ∃ l, (j, l) ∈ enumFrom i xs := by
  intro xs
  induction xs with
  | nil => intro i j h1 h2; simp at h2; omega
  | cons x xs ih =>
    intro i j h1 h2
    by_cases hij : j = i
    · exact ⟨x, hij ▸ List.mem_cons_self _ _⟩
    · have h1' : i + 1 ≤ j := by omega
      have h2' : j < (i + 1) + xs.length := by
        simp at h2
        omega
      obtain ⟨l, hl⟩ := ih h1' h2'
      exact ⟨l, List.mem_cons_of_mem _ hl⟩

theorem enumFrom_fst_lower {α : Type} :
    ∀ {xs : List α} {i : ℕ} {p : ℕ × α}, p ∈ enumFrom i xs → i ≤ p.1 := by
  intro xs i p hp
  obtain ⟨j, l⟩ := p
  exact (mem_enumFrom_bounds hp).1

theorem enumFrom_fst_nodup {α : Type} :
    ∀ (xs : List α) (i : ℕ), ((enumFrom i xs).map Prod.fst).Nodup := by
  intro xs
  induction xs with
  | nil => intro i; exact List.nodup_nil
  | cons x xs ih =>
    intro i
    rw [enumFrom, List.map_cons, List.nodup_cons]
    refine ⟨?_, ih (i + 1)⟩
    intro hmem
    rcases List.mem_map.mp hmem with ⟨p, hp, hfst⟩
    have := enumFrom_fst_lower hp
    omega

/-! ## `visitLinks` invariants -/

theorem visitLinks_vN_mono (nid : String) :
    ∀ (ps : List (ℕ × LinkDatum)) (st : BfsState),
      ∀ x ∈ st.vN, x ∈ (visitLinks nid ps st).vN := by
  intro ps
  induction ps with
  | nil => intro st x hx; exact hx
  | cons p rest ih =>
    obtain ⟨idx, l⟩ := p
    intro st x hx
    rw [visitLinks]
    by_cases h1 : idx ∈ st.vL
    · rw [if_pos h1]
      exact ih st x hx
    · rw [if_neg h1]
      by_cases h2 : l.source = nid ∨ l.target = nid
      · rw [if_pos h2]
        by_cases h3 : otherEnd nid l ∈ st.vN
        · rw [if_pos h3]
          exact ih _ x hx
        · rw [if_neg h3]
          exact ih _ x (List.mem_append_left _ hx)
      · rw [if_neg h2]
        exact ih st x hx

theorem visitLinks_vL_mono (nid : String) :
    ∀ (ps : List (ℕ × LinkDatum)) (st : BfsState),
      ∀ i ∈ st.vL, i ∈ (visitLinks nid ps st).vL := by
  intro ps
  induction ps with
  | nil => intro st i hi; exact hi
  | cons p rest ih =>
    obtain ⟨idx, l⟩ := p
    intro st i hi
    rw [visitLinks]
    by_cases h1 : idx ∈ st.vL
    · rw [if_pos h1]
      exact ih st i hi
    · rw [if_neg h1]
      by_cases h2 : l.source = nid ∨ l.target = nid
      · rw [if_pos h2]
        by_cases h3 : otherEnd nid l ∈ st.vN
        · rw [if_pos h3]
          exact ih _ i (List.mem_append_left _ hi)
        · rw [if_neg h3]
          exact ih _ i (List.mem_append_left _ hi)
      · rw [if_neg h2]
        exact ih st i hi

theorem visitLinks_q_mono (nid : String) :
    ∀ (ps : List (ℕ × LinkDatum)) (st : BfsState),
      ∀ x ∈ st.q, x ∈ (visitLinks nid ps st).q := by
  intro ps
  induction ps with
  | nil => intro st x hx; exact hx
  | cons p rest ih =>
    obtain ⟨idx, l⟩ := p
    intro st x hx
    rw [visitLinks]
    by_cases h1 : idx ∈ st.vL
    · rw [if_pos h1]
      exact ih st x hx
    · rw [if_neg h1]
      by_cases h2 : l.source = nid ∨ l.target = nid
      · rw [if_pos h2]
        by_cases h3 : otherEnd nid l ∈ st.vN
        · rw [if_pos h3]
          exact ih _ x hx
        · rw [if_neg h3]
          exact ih _ x (List.mem_append_left _ hx)
      · rw [if_neg h2]
        exact ih st x hx

theorem visitLinks_vL_complete (nid : String) :
    ∀ (ps : List (ℕ × LinkDatum)) (st : BfsState) {i : ℕ} {l : LinkDatum},
      (i, l) ∈ ps → (l.source = nid ∨ l.target = nid) →
      i ∈ (visitLinks nid ps st).vL := by
  intro ps
  induction ps with
  | nil => intro st i l h; cases h
  | cons p rest ih =>
    obtain ⟨idx, l2⟩ := p
    intro st i l hmem hinc
    rw [visitLinks]
    rcases List.mem_cons.mp hmem with heq | hrest
    · have hi : i = idx := congrArg Prod.fst heq
      have hl : l = l2 := congrArg Prod.snd heq
      subst hi
      subst hl
      by_cases h1 : i ∈ st.vL
      · rw [if_pos h1]
        exact visitLinks_vL_mono nid rest st i h1
      · rw [if_neg h1, if_pos hinc]
        by_cases h3 : otherEnd nid l ∈ st.vN
        · rw [if_pos h3]
          exact visitLinks_vL_mono nid rest _ i
            (List.mem_append_right _ (List.mem_singleton_self i))
        · rw [if_neg h3]
          exact visitLinks_vL_mono nid rest _ i
            (List.mem_append_right _ (List.mem_singleton_self i))
    · by_cases h1 : idx ∈ st.vL
      · rw [if_pos h1]
        exact ih st hrest hinc
      · rw [if_neg h1]
        by_cases h2 : l2.source = nid ∨ l2.target = nid
        · rw [if_pos h2]
          by_cases h3 : otherEnd nid l2 ∈ st.vN
          · rw [if_pos h3]
            exact ih _ hrest hinc
          · rw [if_neg h3]
            exact ih _ hrest hinc
        · rw [if_neg h2]
          exact ih st hrest hinc

theorem visitLinks_vL_sound (nid : String) :
    ∀ (ps : List (ℕ × LinkDatum)) (st : BfsState) {i : ℕ},
      i ∈ (visitLinks nid ps st).vL →
      i ∈ st.vL ∨ ∃ l, (i, l) ∈ ps ∧ (l.source = nid ∨ l.target = nid) := by
  intro ps
  induction ps with
  | nil => intro st i h; exact Or.inl h
  | cons p rest ih =>
    obtain ⟨idx, l2⟩ := p
    intro st i h
    rw [visitLinks] at h
    by_cases h1 : idx ∈ st.vL
    · rw [if_pos h1] at h
      rcases ih st h with hl | ⟨l, hml, hil⟩
      · exact Or.inl hl
      · exact Or.inr ⟨l, List.mem_cons_of_mem _ hml, hil⟩
    · rw [if_neg h1] at h
      by_cases h2 : l2.source = nid ∨ l2.target = nid
      · rw [if_pos h2] at h
        have hgen : ∀ st2 : BfsState, st2.vL = st.vL ++ [idx] →
            i ∈ (visitLinks nid rest st2).vL →
            i ∈ st.vL ∨ ∃ l, (i, l) ∈ (idx, l2) :: rest ∧
              (l.source = nid ∨ l.target = nid) := by
          intro st2 hst2 hh
          rcases ih st2 hh with hl | ⟨l, hml, hil⟩
          · rw [hst2] at hl
            rcases List.mem_append.mp hl with ha | hb
            · exact Or.inl ha
            · have : i = idx := List.mem_singleton.mp hb
              exact Or.inr ⟨l2, this ▸ List.mem_cons_self _ _, h2⟩
          · exact Or.inr ⟨l, List.mem_cons_of_mem _ hml, hil⟩
        by_cases h3 : otherEnd nid l2 ∈ st.vN
        · rw [if_pos h3] at h
          exact hgen _ rfl h
        · rw [if_neg h3] at h
          exact hgen _ rfl h
      · rw [if_neg h2] at h
        rcases ih st h with hl | ⟨l, hml, hil⟩
        · exact Or.inl hl
        · exact Or.inr ⟨l, List.mem_cons_of_mem _ hml, hil⟩

theorem visitLinks_vN_sound (nid : String) :
    ∀ (ps : List (ℕ × LinkDatum)) (st : BfsState) {x : String},
      x ∈ (visitLinks nid ps st).vN →
      x ∈ st.vN ∨ ∃ i l, (i, l) ∈ ps ∧ (l.source = nid ∨ l.target = nid)
        ∧ x = otherEnd nid l := by
  intro ps
  induction ps with
  | nil => intro st x h; exact Or.inl h
  | cons p rest ih =>
    obtain ⟨idx, l2⟩ := p
    intro st x h
    rw [visitLinks] at h
    by_cases h1 : idx ∈ st.vL
    · rw [if_pos h1] at h
      rcases ih st h with hl | ⟨i, l, hml, hil, hx⟩
      · exact Or.inl hl
      · exact Or.inr ⟨i, l, List.mem_cons_of_mem _ hml, hil, hx⟩
    · rw [if_neg h1] at h
      by_cases h2 : l2.source = nid ∨ l2.target = nid
      · rw [if_pos h2] at h
        by_cases h3 : otherEnd nid l2 ∈ st.vN
        · rw [if_pos h3] at h
          rcases ih _ h with hl | ⟨i, l, hml, hil, hx⟩
          · exact Or.inl hl
          · exact Or.inr ⟨i, l, List.mem_cons_of_mem _ hml, hil, hx⟩
        · rw [if_neg h3] at h
          rcases ih _ h with hl | ⟨i, l, hml, hil, hx⟩
          · rcases List.mem_append.mp hl with ha | hb
            · exact Or.inl ha
            · exact Or.inr ⟨idx, l2, List.mem_cons_self _ _, h2,
                List.mem_singleton.mp hb⟩
          · exact Or.inr ⟨i, l, List.mem_cons_of_mem _ hml, hil, hx⟩
      · rw [if_neg h2] at h
        rcases ih st h with hl | ⟨i, l, hml, hil, hx⟩
        · exact Or.inl hl
        · exact Or.inr ⟨i, l, List.mem_cons_of_mem _ hml, hil, hx⟩

theorem visitLinks_q_sound (nid : String) :
    ∀ (ps : List (ℕ × LinkDatum)) (st : BfsState) {x : String},
      x ∈ (visitLinks nid ps st).q →
      x ∈ st.q ∨ ∃ i l, (i, l) ∈ ps ∧ (l.source = nid ∨ l.target = nid)
        ∧ x = otherEnd nid l := by
  intro ps
  induction ps with
  | nil => intro st x h; exact Or.inl h
  | cons p rest ih =>
    obtain ⟨idx, l2⟩ := p
    intro st x h
    rw [visitLinks] at h
    by_cases h1 : idx ∈ st.vL
    · rw [if_pos h1] at h
      rcases ih st h with hl | ⟨i, l, hml, hil, hx⟩
      · exact Or.inl hl
      · exact Or.inr ⟨i, l, List.mem_cons_of_mem _ hml, hil, hx⟩
    · rw [if_neg h1] at h
      by_cases h2 : l2.source = nid ∨ l2.target = nid
      · rw [if_pos h2] at h
        by_cases h3 : otherEnd nid l2 ∈ st.vN
        · rw [if_pos h3] at h
          rcases ih _ h with hl | ⟨i, l, hml, hil, hx⟩
          · exact Or.inl hl
          · exact Or.inr ⟨i, l, List.mem_cons_of_mem _ hml, hil, hx⟩
        · rw [if_neg h3] at h
          rcases ih _ h with hl | ⟨i, l, hml, hil, hx⟩
          · rcases List.mem_append.mp hl with ha | hb
            · exact Or.inl ha
            · exact Or.inr ⟨idx, l2, List.mem_cons_self _ _, h2,
                List.mem_singleton.mp hb⟩
          · exact Or.inr ⟨i, l, List.mem_cons_of_mem _ hml, hil, hx⟩
      · rw [if_neg h2] at h
        rcases ih st h with hl | ⟨i, l, hml, hil, hx⟩
        · exact Or.inl hl
        · exact Or.inr ⟨i, l, List.mem_cons_of_mem _ hml, hil, hx⟩

theorem visitLinks_vN_in_q (nid : String) :
    ∀ (ps : List (ℕ × LinkDatum)) (st : BfsState) {x : String},
      x ∈ (visitLinks nid ps st).vN →
      x ∈ st.vN ∨ x ∈ (visitLinks nid ps st).q := by
  intro ps
  induction ps with
  | nil => intro st x h; exact Or.inl h
  | cons p rest ih =>
    obtain ⟨idx, l2⟩ := p
    intro st x h
    rw [visitLinks] at h ⊢
    by_cases h1 : idx ∈ st.vL
    · rw [if_pos h1] at h ⊢
      exact ih st h
    · rw [if_neg h1] at h ⊢
      by_cases h2 : l2.source = nid ∨ l2.target = nid
      · rw [if_pos h2] at h ⊢
        by_cases h3 : otherEnd nid l2 ∈ st.vN
        · rw [if_pos h3] at h ⊢
          exact ih _ h
        · rw [if_neg h3] at h ⊢
          rcases ih _ h with hl | hq
          · rcases List.mem_append.mp hl with ha | hb
            · exact Or.inl ha
            · refine Or.inr (visitLinks_q_mono nid rest _ x ?_)
              exact List.mem_append_right _ hb
          · exact Or.inr hq
      · rw [if_neg h2] at h ⊢
        exact ih st h

theorem visitLinks_q_sub_vN (nid : String) :
    ∀ (ps : List (ℕ × LinkDatum)) (st : BfsState),
      (∀ x ∈ st.q, x ∈ st.vN) →
      ∀ x ∈ (visitLinks nid ps st).q, x ∈ (visitLinks nid ps st).vN := by
  intro ps
  induction ps with
  | nil => intro st hq x hx; exact hq x hx
  | cons p rest ih =>
    obtain ⟨idx, l2⟩ := p
    intro st hq x hx
    rw [visitLinks] at hx ⊢
    by_cases h1 : idx ∈ st.vL
    · rw [if_pos h1] at hx ⊢
      exact ih st hq x hx
    · rw [if_neg h1] at hx ⊢
      by_cases h2 : l2.source = nid ∨ l2.target = nid
      · rw [if_pos h2] at hx ⊢
        by_cases h3 : otherEnd nid l2 ∈ st.vN
        · rw [if_pos h3] at hx ⊢
          exact ih (BfsState.mk st.vN (st.vL ++ [idx]) st.q) (fun y hy => hq y hy) x hx
        · rw [if_neg h3] at hx ⊢
          refine ih _ ?_ x hx
          intro y hy
          rcases List.mem_append.mp hy with ha | hb
          · exact List.mem_append_left _ (hq y ha)
          · exact List.mem_append_right _ hb
      · rw [if_neg h2] at hx ⊢
        exact ih st hq x hx

theorem visitLinks_q_len (nid : String) :
    ∀ (ps : List (ℕ × LinkDatum)) (st : BfsState),
      (visitLinks nid ps st).q.length ≤ st.q.length + ps.length := by
  intro ps
  induction ps with
  | nil => intro st; simp [visitLinks]
  | cons p rest ih =>
    obtain ⟨idx, l2⟩ := p
    intro st
    rw [visitLinks]
    by_cases h1 : idx ∈ st.vL
    · rw [if_pos h1]
      calc (visitLinks nid rest st).q.length ≤ st.q.length + rest.length := ih st
        _ ≤ st.q.length + ((idx, l2) :: rest).length := by
          rw [List.length_cons]
          omega
    · rw [if_neg h1]
      by_cases h2 : l2.source = nid ∨ l2.target = nid
      · rw [if_pos h2]
        by_cases h3 : otherEnd nid l2 ∈ st.vN
        · rw [if_pos h3]
          refine le_trans (ih (BfsState.mk st.vN (st.vL ++ [idx]) st.q)) ?_
          show st.q.length + rest.length ≤ st.q.length + ((idx, l2) :: rest).length
          rw [List.length_cons]
          omega
        · rw [if_neg h3]
          refine le_trans (ih (BfsState.mk (st.vN ++ [otherEnd nid l2]) (st.vL ++ [idx])
            (st.q ++ [otherEnd nid l2]))) ?_
          show (st.q ++ [otherEnd nid l2]).length + rest.length
            ≤ st.q.length + ((idx, l2) :: rest).length
          rw [List.length_append, List.length_singleton, List.length_cons]
          omega
      · rw [if_neg h2]
        calc (visitLinks nid rest st).q.length ≤ st.q.length + rest.length := ih st
          _ ≤ st.q.length + ((idx, l2) :: rest).length := by
            rw [List.length_cons]
            omega

theorem visitLinks_vN_complete (nid : String) :
    ∀ (ps : List (ℕ × LinkDatum)) (st : BfsState) {i : ℕ} {l : LinkDatum},
      ((ps.map Prod.fst).Nodup) → (i, l) ∈ ps → i ∉ st.vL →
      (l.source = nid ∨ l.target = nid) →
      otherEnd nid l ∈ (visitLinks nid ps st).vN := by
  intro ps
  induction ps with
  | nil => intro st i l _ h; cases h
  | cons p rest ih =>
    obtain ⟨idx, l2⟩ := p
    intro st i l hnd hmem hiv hinc
    rw [List.map_cons, List.nodup_cons] at hnd
    rw [visitLinks]
    rcases List.mem_cons.mp hmem with heq | hrest
    · have hi : i = idx := congrArg Prod.fst heq
      have hl : l = l2 := congrArg Prod.snd heq
      subst hi
      subst hl
      rw [if_neg hiv, if_pos hinc]
      by_cases h3 : otherEnd nid l ∈ st.vN
      · rw [if_pos h3]
        exact visitLinks_vN_mono nid rest _ _ h3
      · rw [if_neg h3]
        exact visitLinks_vN_mono nid rest _ _
          (List.mem_append_right _ (List.mem_singleton_self _))
    · have hne : i ≠ idx := by
        intro he
        apply hnd.1
        have hmm : i ∈ rest.map Prod.fst := List.mem_map_of_mem Prod.fst hrest
        rwa [he] at hmm
      by_cases h1 : idx ∈ st.vL
      · rw [if_pos h1]
        exact ih st hnd.2 hrest hiv hinc
      · rw [if_neg h1]
        by_cases h2 : l2.source = nid ∨ l2.target = nid
        · rw [if_pos h2]
          have hiv2 : i ∉ st.vL ++ [idx] := by
            intro hmem2
            rcases List.mem_append.mp hmem2 with ha | hb
            · exact hiv ha
            · exact hne (List.mem_singleton.mp hb)
          by_cases h3 : otherEnd nid l2 ∈ st.vN
          · rw [if_pos h3]
            exact ih _ hnd.2 hrest hiv2 hinc
          · rw [if_neg h3]
            exact ih _ hnd.2 hrest hiv2 hinc
        · rw [if_neg h2]
          exact ih st hnd.2 hrest hiv hinc

theorem visitLinks_saturated (nid : String) :
    ∀ (ps : List (ℕ × LinkDatum)) (st : BfsState),
      (∀ p ∈ ps, p.1 ∈ st.vL) → visitLinks nid ps st = st := by
  intro ps
  induction ps with
  | nil => intro st _; rfl
  | cons p rest ih =>
    obtain ⟨idx, l2⟩ := p
    intro st hall
    rw [visitLinks, if_pos (hall (idx, l2) (List.mem_cons_self _ _))]
    exact ih st (fun q hq => hall q (List.mem_cons_of_mem _ hq))

theorem bfsLoop_saturated (links : List LinkDatum) :
    ∀ (fuel : ℕ) (st : BfsState),
      (∀ p ∈ enumFrom 0 links, p.1 ∈ st.vL) → st.q.length ≤ fuel →
      (bfsLoop links fuel st).vN = st.vN ∧ (bfsLoop links fuel st).vL = st.vL := by
  intro fuel
  induction fuel with
  | zero => intro st _ _; exact ⟨rfl, rfl⟩
  | succ fuel ih =>
    intro st hall hlen
    obtain ⟨vN, vL, q⟩ := st
    rcases q with _ | ⟨nid, rest⟩
    · exact ⟨rfl, rfl⟩
    · have hsat : visitLinks nid (enumFrom 0 links) (BfsState.mk vN vL rest)
          = BfsState.mk vN vL rest :=
        visitLinks_saturated nid _ _ (fun p hp => hall p hp)
      have hstep : bfsLoop links (fuel + 1) (BfsState.mk vN vL (nid :: rest))
          = bfsLoop links fuel (visitLinks nid (enumFrom 0 links) (BfsState.mk vN vL rest)) := by
        rw [bfsLoop]
      rw [hstep, hsat]
      have hlen' : (nid :: rest).length ≤ fuel + 1 := hlen
      have hlen2 : rest.length ≤ fuel := by
        rw [List.length_cons] at hlen'
        omega
      exact ih (BfsState.mk vN vL rest) (fun p hp => hall p hp) hlen2

/-! ## The star-graph BFS theorem (claim C8) -/

theorem enumFrom_length {α : Type} :
    ∀ (xs : List α) (i : ℕ), (enumFrom i xs).length = xs.length := by
  intro xs
  induction xs with
  | nil => intro i; rfl
  | cons x xs ih =>
    intro i
    rw [enumFrom, List.length_cons, List.length_cons, ih]

/-- Along a star link incident to a non-pool node `x`, the neighbour of
the pool is `x` itself. -/
theorem otherEnd_budget_eq {l : LinkDatum} {x : String}
    (hstar : l.source = "budget" ∨ l.target = "budget")
    (hincx : l.source = x ∨ l.target = x) (hx : x ≠ "budget") :
    otherEnd "budget" l = x := by
  unfold otherEnd
  by_cases hsb : l.source = "budget"
  · rw [if_pos hsb]
    rcases hincx with h | h
    · exact absurd (h.symm.trans hsb) hx
    · exact h
  · rw [if_neg hsb]
    rcases hincx with h | h
    · exact h
    · rcases hstar with h2 | h2
      · exact absurd h2 hsb
      · exact absurd (h.symm.trans h2) hx

/-- Unfolding one round of the queue loop. -/
theorem bfsLoop_cons (links : List LinkDatum) (fuel : ℕ) (st : BfsState)
    {nid : String} {rest : List String} (hq : st.q = nid :: rest) :
    bfsLoop links (fuel + 1) st
      = bfsLoop links fuel
          (visitLinks nid (enumFrom 0 links) (BfsState.mk st.vN st.vL rest)) := by
  obtain ⟨vN, vL, q⟩ := st
  have hq2 : q = nid :: rest := hq
  subst hq2
  rw [bfsLoop]

/-- BFS on a star graph through the pool node: starting from any node id
of the graph, the traversal visits every node id and marks every link
index. -/
theorem bfs_star_complete (links : List LinkDatum) (ids : List String) (n0 : String)
    (hstar : ∀ l ∈ links, l.source = "budget" ∨ l.target = "budget")
    (hends : ∀ l ∈ links, l.source ∈ ids ∧ l.target ∈ ids)
    (hincid : ∀ x ∈ ids, ∃ l ∈ links, l.source = x ∨ l.target = x)
    (hbud : "budget" ∈ ids) (hn0 : n0 ∈ ids) :
    (∀ x, x ∈ (highlightFromNode links n0).vN ↔ x ∈ ids)
      ∧ (∀ i, i ∈ (highlightFromNode links n0).vL ↔ i < links.length) := by
  have hps_nd : ((enumFrom 0 links).map Prod.fst).Nodup := enumFrom_fst_nodup links 0
  have hps_star : ∀ (j : ℕ) (l : LinkDatum), (j, l) ∈ enumFrom 0 links →
      l.source = "budget" ∨ l.target = "budget" :=
    fun _ l h => hstar l (mem_enumFrom_mem h)
  have hps_bound : ∀ (j : ℕ) (l : LinkDatum), (j, l) ∈ enumFrom 0 links →
      j < links.length := by
    intro j l h
    have hb := mem_enumFrom_bounds h
    omega
  have hotherEnd_ids : ∀ (nid : String) (l : LinkDatum), l ∈ links →
      otherEnd nid l ∈ ids := by
    intro nid l hl
    rcases otherEnd_cases nid l with h | h
    · rw [h]; exact (hends l hl).1
    · rw [h]; exact (hends l hl).2
  by_cases hb : n0 = "budget"
  · subst hb
    set st1 := visitLinks "budget" (enumFrom 0 links) (BfsState.mk ["budget"] [] [])
      with hst1
    have hstep : highlightFromNode links "budget"
        = bfsLoop links (2 * links.length + 1) st1 := by
      rw [highlightFromNode]
      exact bfsLoop_cons links (2 * links.length + 1) _ rfl
    have hvL1_complete : ∀ i, i < links.length → i ∈ st1.vL := by
      intro i hi
      obtain ⟨l, hl⟩ := mem_enumFrom_of_lt (Nat.zero_le i)
        (by omega : i < 0 + links.length)
      exact visitLinks_vL_complete "budget" _ _ hl (hps_star i l hl)
    have hvL1_sound : ∀ i, i ∈ st1.vL → i < links.length := by
      intro i hi
      rcases visitLinks_vL_sound "budget" _ _ hi with hmem | ⟨l, hml, _⟩
      · exact absurd hmem (List.not_mem_nil i)
      · exact hps_bound i l hml
    have hvN1_complete : ∀ x ∈ ids, x ∈ st1.vN := by
      intro x hx
      by_cases hxb : x = "budget"
      · subst hxb
        exact visitLinks_vN_mono "budget" _ _ _ (List.mem_singleton_self _)
      · obtain ⟨l, hl, hincl⟩ := hincid x hx
        obtain ⟨j, hj⟩ := mem_enumFrom_of_mem 0 hl
        have hoe : otherEnd "budget" l = x := otherEnd_budget_eq (hstar l hl) hincl hxb
        have hin := visitLinks_vN_complete "budget" (enumFrom 0 links)
          (BfsState.mk ["budget"] [] []) hps_nd hj (List.not_mem_nil j) (hstar l hl)
        rwa [hoe] at hin
    have hvN1_sound : ∀ x, x ∈ st1.vN → x ∈ ids := by
      intro x hx
      rcases visitLinks_vN_sound "budget" _ _ hx with hmem | ⟨i, l, hml, _, rfl⟩
      · rw [List.mem_singleton.mp hmem]
        exact hbud
      · exact hotherEnd_ids _ _ (mem_enumFrom_mem hml)
    have hall : ∀ p ∈ enumFrom 0 links, p.1 ∈ st1.vL := by
      intro p hp
      obtain ⟨j, l⟩ := p
      exact hvL1_complete j (hps_bound j l hp)
    have hqlen : st1.q.length ≤ 2 * links.length + 1 := by
      have hq := visitLinks_q_len "budget" (enumFrom 0 links)
        (BfsState.mk ["budget"] [] [])
      have h2 : (BfsState.mk ["budget"] [] ([] : List String)).q.length
          + (enumFrom 0 links).length = links.length := by
        rw [enumFrom_length]
        show 0 + links.length = links.length
        omega
      rw [h2] at hq
      calc st1.q.length ≤ links.length := hq
        _ ≤ 2 * links.length + 1 := by omega
    have hsat := bfsLoop_saturated links (2 * links.length + 1) st1 hall hqlen
    constructor
    · intro x
      rw [hstep, hsat.1]
      exact ⟨fun hh => hvN1_sound x hh, fun hh => hvN1_complete x hh⟩
    · intro i
      rw [hstep, hsat.2]
      exact ⟨fun hh => hvL1_sound i hh, fun hh => hvL1_complete i hh⟩
  · set st1 := visitLinks n0 (enumFrom 0 links) (BfsState.mk [n0] [] []) with hst1
    have hstep1 : highlightFromNode links n0
        = bfsLoop links (2 * links.length + 1) st1 := by
      rw [highlightFromNode]
      exact bfsLoop_cons links (2 * links.length + 1) _ rfl
    have hq1_all : ∀ x ∈ st1.q, x = "budget" := by
      intro x hx
      rcases visitLinks_q_sound n0 _ _ hx with hmem | ⟨i, l, hml, hincl, rfl⟩
      · exact absurd hmem (List.not_mem_nil x)
      · exact otherEnd_of_star (hstar l (mem_enumFrom_mem hml)) hincl hb
    have hbud_vN1 : "budget" ∈ st1.vN := by
      obtain ⟨l0, hl0, hinc0⟩ := hincid n0 hn0
      obtain ⟨j0, hj0⟩ := mem_enumFrom_of_mem 0 hl0
      have hoe : otherEnd n0 l0 = "budget" := otherEnd_of_star (hstar l0 hl0) hinc0 hb
      have hin := visitLinks_vN_complete n0 (enumFrom 0 links)
        (BfsState.mk [n0] [] []) hps_nd hj0 (List.not_mem_nil j0) hinc0
      rwa [hoe] at hin
    have hbud_q1 : "budget" ∈ st1.q := by
      rcases visitLinks_vN_in_q n0 _ _ hbud_vN1 with hmem | hmem
      · exact absurd (List.mem_singleton.mp hmem) (Ne.symm hb)
      · exact hmem
    obtain ⟨rest1, hq1⟩ : ∃ rest1, st1.q = "budget" :: rest1 := by
      cases hcase : st1.q with
      | nil =>
        rw [hcase] at hbud_q1
        exact absurd hbud_q1 (List.not_mem_nil _)
      | cons hd tl =>
        have hhd : hd = "budget" := hq1_all hd (by rw [hcase]; exact List.mem_cons_self _ _)
        exact ⟨tl, by rw [hhd]⟩
    set st2 := visitLinks "budget" (enumFrom 0 links)
      (BfsState.mk st1.vN st1.vL rest1) with hst2
    have hstep2 : bfsLoop links (2 * links.length + 1) st1
        = bfsLoop links (2 * links.length) st2 :=
      bfsLoop_cons links (2 * links.length) st1 hq1
    have hvL1_sound : ∀ i, i ∈ st1.vL → i < links.length := by
      intro i hi
      rcases visitLinks_vL_sound n0 _ _ hi with hmem | ⟨l, hml, _⟩
      · exact absurd hmem (List.not_mem_nil i)
      · exact hps_bound i l hml
    have hvL2_complete : ∀ i, i < links.length → i ∈ st2.vL := by
      intro i hi
      obtain ⟨l, hl⟩ := mem_enumFrom_of_lt (Nat.zero_le i)
        (by omega : i < 0 + links.length)
      exact visitLinks_vL_complete "budget" _ _ hl (hps_star i l hl)
    have hvL2_sound : ∀ i, i ∈ st2.vL → i < links.length := by
      intro i hi
      rcases visitLinks_vL_sound "budget" _ _ hi with hmem | ⟨l, hml, _⟩
      · exact hvL1_sound i hmem
      · exact hps_bound i l hml
    have hvN2_complete : ∀ x ∈ ids, x ∈ st2.vN := by
      intro x hx
      by_cases hxb : x = "budget"
      · subst hxb
        exact visitLinks_vN_mono "budget" _ _ _ hbud_vN1
      · by_cases hxn : x = n0
        · have h1 : n0 ∈ st1.vN :=
            visitLinks_vN_mono n0 _ _ _ (List.mem_singleton_self n0)
          have h2 : n0 ∈ st2.vN := visitLinks_vN_mono "budget" _ _ _ h1
          rwa [hxn]
        · obtain ⟨l, hl, hincl⟩ := hincid x hx
          obtain ⟨j, hj⟩ := mem_enumFrom_of_mem 0 hl
          have hjnot : j ∉ st1.vL := by
            intro hjin
            rcases visitLinks_vL_sound n0 _ _ hjin with hmem | ⟨l2, hml2, hincl2⟩
            · exact absurd hmem (List.not_mem_nil j)
            · have hll : l2 = l := mem_enumFrom_functional hml2 hj
              rw [hll] at hincl2
              rcases endpoints_of_star (hstar l hl) hincl hxb hincl2 with hc | hc
              · exact hxn hc.symm
              · exact hb hc
          have hoe : otherEnd "budget" l = x := otherEnd_budget_eq (hstar l hl) hincl hxb
          have hin := visitLinks_vN_complete "budget" (enumFrom 0 links)
            (BfsState.mk st1.vN st1.vL rest1) hps_nd hj hjnot (hstar l hl)
          rw [hoe] at hin
          exact hin
    have hvN1_sound : ∀ x, x ∈ st1.vN → x ∈ ids := by
      intro x hx
      rcases visitLinks_vN_sound n0 _ _ hx with hmem | ⟨i, l, hml, _, rfl⟩
      · rw [List.mem_singleton.mp hmem]
        exact hn0
      · exact hotherEnd_ids _ _ (mem_enumFrom_mem hml)
    have hvN2_sound : ∀ x, x ∈ st2.vN → x ∈ ids := by
      intro x hx
      rcases visitLinks_vN_sound "budget" _ _ hx with hmem | ⟨i, l, hml, _, rfl⟩
      · exact hvN1_sound x hmem
      · exact hotherEnd_ids _ _ (mem_enumFrom_mem hml)
    have hall : ∀ p ∈ enumFrom 0 links, p.1 ∈ st2.vL := by
      intro p hp
      obtain ⟨j, l⟩ := p
      exact hvL2_complete j (hps_bound j l hp)
    have hq1len : st1.q.length ≤ links.length := by
      have hq := visitLinks_q_len n0 (enumFrom 0 links) (BfsState.mk [n0] [] [])
      have h2 : (BfsState.mk [n0] [] ([] : List String)).q.length
          + (enumFrom 0 links).length = links.length := by
        rw [enumFrom_length]
        show 0 + links.length = links.length
        omega
      rw [h2] at hq
      exact hq
    have hq2len : st2.q.length ≤ 2 * links.length := by
      have hq := visitLinks_q_len "budget" (enumFrom 0 links)
        (BfsState.mk st1.vN st1.vL rest1)
      have h3 : (BfsState.mk st1.vN st1.vL rest1).q.length = rest1.length := rfl
      rw [h3, enumFrom_length] at hq
      have h4 : rest1.length + 1 ≤ links.length := by
        have h5 := hq1len
        rw [hq1, List.length_cons] at h5
        omega
      calc st2.q.length ≤ rest1.length + links.length := hq
        _ ≤ 2 * links.length := by omega
    have hsat := bfsLoop_saturated links (2 * links.length) st2 hall hq2len
    constructor
    · intro x
      rw [hstep1, hstep2, hsat.1]
      exact ⟨fun hh => hvN2_sound x hh, fun hh => hvN2_complete x hh⟩
    · intro i
      rw [hstep1, hstep2, hsat.2]
      exact ⟨fun hh => hvL2_sound i hh, fun hh => hvL2_complete i hh⟩

theorem exists_mapped_node_id {α : Type} (I : List α) (f : α → NodeDatum) (x : String) :
    (∃ n, (∃ a ∈ I, n = f a) ∧ x = n.id) ↔ ∃ a ∈ I, x = (f a).id := by
  constructor
  · rintro ⟨n, ⟨a, ha, rfl⟩, h2⟩
    exact ⟨a, ha, h2⟩
  · rintro ⟨a, ha, h2⟩
    exact ⟨f a, ⟨a, ha, rfl⟩, h2⟩

/-- The node ids of the built graph, characterised by membership. -/
theorem mem_builtNodes_ids (rI rE : List Row)
    (h : ¬(totalIncomeOf rI ≤ 0 ∧ totalExpenseOf rE ≤ 0)) (x : String) :
    (∃ n ∈ builtNodes rI rE, n.id = x) ↔
      ((∃ i ∈ incomesOf rI, i.id = x)
      ∨ (0 < debtTotalOf (totalIncomeOf rI) (totalExpenseOf rE) ∧ x = "debt")
      ∨ x = "budget"
      ∨ (∃ e ∈ expensesOf rE, e.id = x)
      ∨ (0 < savingsTotalOf (totalIncomeOf rI) (totalExpenseOf rE) ∧ x = "savings")) := by
  rw [builtNodes_eq rI rE h]
  unfold nodesOf nodesRawOf
  by_cases hd : 0 < debtTotalOf (totalIncomeOf rI) (totalExpenseOf rE) <;>
    by_cases hs : 0 < savingsTotalOf (totalIncomeOf rI) (totalExpenseOf rE) <;>
      simp [hd, hs, eq_comm, List.mem_append, List.mem_map, or_and_right, exists_or,
        and_assoc, exists_mapped_node_id]

/-- C8: on a built graph the click-triggered breadth-first traversal from
any node id marks exactly the whole diagram: the visited-node set is
precisely the set of node ids and the visited-link set is precisely the
full index range of the link list (the link graph is a star through the
pool node, so the connected component of every node is the entire graph). -/
theorem highlight_complete (rI rE : List Row) (n0 : NodeDatum)
    (hbuilt : buildGraph rI rE ≠ none) (hn0 : n0 ∈ builtNodes rI rE) :
    (∀ x, x ∈ (highlightFromNode (builtLinks rI rE) n0.id).vN
        ↔ ∃ n ∈ builtNodes rI rE, n.id = x)
      ∧ (∀ i, i ∈ (highlightFromNode (builtLinks rI rE) n0.id).vL
        ↔ i < (builtLinks rI rE).length) := by
  have h := (buildGraph_ne_none_iff rI rE).mp hbuilt
  have hL := builtLinks_eq rI rE h
  have hids : ∀ x, x ∈ (builtNodes rI rE).map NodeDatum.id ↔
      ((∃ i ∈ incomesOf rI, i.id = x)
      ∨ (0 < debtTotalOf (totalIncomeOf rI) (totalExpenseOf rE) ∧ x = "debt")
      ∨ x = "budget"
      ∨ (∃ e ∈ expensesOf rE, e.id = x)
      ∨ (0 < savingsTotalOf (totalIncomeOf rI) (totalExpenseOf rE) ∧ x = "savings")) := by
    intro x
    rw [List.mem_map]
    exact mem_builtNodes_ids rI rE h x
  have hstar : ∀ l ∈ builtLinks rI rE, l.source = "budget" ∨ l.target = "budget" := by
    rw [hL]
    exact fun l hl => linksOf_star incomesOf_pos expensesOf_pos hl
  have hends : ∀ l ∈ builtLinks rI rE,
      l.source ∈ (builtNodes rI rE).map NodeDatum.id
        ∧ l.target ∈ (builtNodes rI rE).map NodeDatum.id := by
    intro l hl
    rw [hL] at hl
    rcases (mem_linksOf incomesOf_pos expensesOf_pos).mp hl with
      ⟨i, hi, rfl⟩ | ⟨hdpos, rfl⟩ | ⟨e, he, rfl⟩ | ⟨hspos, rfl⟩
    · exact ⟨(hids _).mpr (Or.inl ⟨i, hi, rfl⟩),
        (hids _).mpr (Or.inr (Or.inr (Or.inl rfl)))⟩
    · exact ⟨(hids _).mpr (Or.inr (Or.inl ⟨hdpos, rfl⟩)),
        (hids _).mpr (Or.inr (Or.inr (Or.inl rfl)))⟩
    · exact ⟨(hids _).mpr (Or.inr (Or.inr (Or.inl rfl))),
        (hids _).mpr (Or.inr (Or.inr (Or.inr (Or.inl ⟨e, he, rfl⟩))))⟩
    · exact ⟨(hids _).mpr (Or.inr (Or.inr (Or.inl rfl))),
        (hids _).mpr (Or.inr (Or.inr (Or.inr (Or.inr ⟨hspos, rfl⟩))))⟩
  have hincid : ∀ x ∈ (builtNodes rI rE).map NodeDatum.id,
      ∃ l ∈ builtLinks rI rE, l.source = x ∨ l.target = x := by
    intro x hx
    rcases (hids x).mp hx with ⟨i, hi, rfl⟩ | ⟨hdpos, rfl⟩ | rfl | ⟨e, he, rfl⟩ | ⟨hspos, rfl⟩
    · refine ⟨LinkDatum.mk i.id "budget" i.value, ?_, Or.inl rfl⟩
      rw [hL]
      exact (mem_linksOf incomesOf_pos expensesOf_pos).mpr (Or.inl ⟨i, hi, rfl⟩)
    · refine ⟨LinkDatum.mk "debt" "budget"
        (debtTotalOf (totalIncomeOf rI) (totalExpenseOf rE)), ?_, Or.inl rfl⟩
      rw [hL]
      exact (mem_linksOf incomesOf_pos expensesOf_pos).mpr (Or.inr (Or.inl ⟨hdpos, rfl⟩))
    · obtain ⟨l, hl⟩ := List.exists_mem_of_ne_nil _
        (linksOf_ne_nil h (debtTotalOf (totalIncomeOf rI) (totalExpenseOf rE))
          (savingsTotalOf (totalIncomeOf rI) (totalExpenseOf rE)))
      refine ⟨l, ?_, linksOf_star incomesOf_pos expensesOf_pos hl⟩
      rw [hL]
      exact hl
    · refine ⟨LinkDatum.mk "budget" e.id e.value, ?_, Or.inr rfl⟩
      rw [hL]
      exact (mem_linksOf incomesOf_pos expensesOf_pos).mpr
        (Or.inr (Or.inr (Or.inl ⟨e, he, rfl⟩)))
    · refine ⟨LinkDatum.mk "budget" "savings"
        (savingsTotalOf (totalIncomeOf rI) (totalExpenseOf rE)), ?_, Or.inr rfl⟩
      rw [hL]
      exact (mem_linksOf incomesOf_pos expensesOf_pos).mpr
        (Or.inr (Or.inr (Or.inr ⟨hspos, rfl⟩)))
  have hmain := bfs_star_complete (builtLinks rI rE) ((builtNodes rI rE).map NodeDatum.id)
    n0.id hstar hends hincid ((hids _).mpr (Or.inr (Or.inr (Or.inl rfl))))
    (List.mem_map_of_mem NodeDatum.id hn0)
  exact ⟨fun x => (hmain.1 x).trans List.mem_map, hmain.2⟩

set_option maxRecDepth 8000 in
/-- C8 witness: in the surplus example (`Salary 100` against `Rent 40`,
which creates the savings node) a click on the income node highlights the
whole diagram. -/
theorem highlight_complete_witness :
    (∀ x, x ∈ (highlightFromNode (builtLinks [Row.mk "a" "Salary" 100] [Row.mk "b" "Rent" 40])
          (NodeDatum.mk "inc-a" "Salary" NodeType.income 100).id).vN
        ↔ ∃ n ∈ builtNodes [Row.mk "a" "Salary" 100] [Row.mk "b" "Rent" 40], n.id = x)
      ∧ (∀ i, i ∈ (highlightFromNode (builtLinks [Row.mk "a" "Salary" 100] [Row.mk "b" "Rent" 40])
          (NodeDatum.mk "inc-a" "Salary" NodeType.income 100).id).vL
        ↔ i < (builtLinks [Row.mk "a" "Salary" 100] [Row.mk "b" "Rent" 40]).length) :=
  highlight_complete [Row.mk "a" "Salary" 100] [Row.mk "b" "Rent" 40]
    (NodeDatum.mk "inc-a" "Salary" NodeType.income 100)
    (of_decide_eq_true (by with_unfolding_all rfl))
    (of_decide_eq_true (by with_unfolding_all rfl))

end BudgetSankey
